import Mathlib

/-!
Verification development for the fnerror procedural transformation.

The development shallowly embeds the syntax-tree fragment that the
transformation inspects (calls, paths, casts, literals, method calls,
closures, blocks, statements, nested fn items, reference types, path
types, tuple types, generic arguments), together with the three engines
of the repository:

- the generics resolver of src/visitors/generics.rs (GenericsVisitor),
- the call-site extractor of src/lib.rs (ErrorVistor, a VisitMut pass),
- the return-type transform parse_return_type of src/lib.rs and the
  ReturnType parser of src/return_type.rs.

Traversal defaults mirror the generated visitors of the syn crate: the
default walk recurses into every child, including statements that are
nested items (Stmt::Item is walked into by visit_stmt), cast types, and
const expressions nested in generic arguments.
-/

namespace Fnerror

mutual

/-- Expressions, after syn::Expr restricted to the constructors the
transformation distinguishes.  Attributes are kept only on call
expressions, the sole place the passes read or rewrite them; an
attribute is represented by its path segments. -/
inductive Expr where
  | call (attrs : List (List String)) (func : Expr) (args : List Expr)
  | path (lc : Bool) (segs : List String)
  | cast (e : Expr) (ty : Ty)
  | lit (s : String)
  | methodCall (recv : Expr) (args : List Expr)
  | closure (body : Expr)
  | block (stmts : List Stmt)
  | tryE (e : Expr)

/-- Statements after syn::Stmt; a nested function item (syn Stmt::Item
with Item::Fn) is kept with its body, since the default visitor walks
into it. -/
inductive Stmt where
  | exprStmt (e : Expr)
  | localStmt (init : Option Expr)
  | itemFn (name : String) (body : List Stmt)

/-- Types after syn::Type: references with an optional lifetime, path
types with segments, tuples. -/
inductive Ty where
  | ref (lt : Option String) (elem : Ty)
  | path (lc : Bool) (segs : List TySeg)
  | tuple (elems : List Ty)

/-- A path segment of a type path: identifier plus path arguments. -/
inductive TySeg where
  | mk (ident : String) (args : PathArgs)

/-- syn::PathArguments, restricted to None and AngleBracketed. -/
inductive PathArgs where
  | none
  | angle (args : List GenericArg)

/-- syn::GenericArgument: a lifetime, a type, or a const expression. -/
inductive GenericArg where
  | lifetime (name : String)
  | tyArg (t : Ty)
  | constArg (e : Expr)

end

/-- Identifier of a type-path segment. -/
def TySeg.ident : TySeg → String
  | .mk i _ => i

/-- Path arguments of a type-path segment. -/
def TySeg.args : TySeg → PathArgs
  | .mk _ a => a

/-- syn::GenericParam restricted to its three kinds, each identified by
name (lifetime names are stored without the leading tick). -/
inductive GenericParam where
  | lifetime (name : String)
  | typeParam (name : String)
  | constParam (name : String)
deriving DecidableEq, Repr

/-- Generics::lifetimes() projected to names. -/
def lifetimesOf (ps : List GenericParam) : List String :=
  ps.filterMap fun p => match p with | .lifetime n => some n | _ => Option.none

/-- Generics::type_params() projected to names. -/
def typeParamsOf (ps : List GenericParam) : List String :=
  ps.filterMap fun p => match p with | .typeParam n => some n | _ => Option.none

/-- Generics::const_params() projected to names. -/
def constParamsOf (ps : List GenericParam) : List String :=
  ps.filterMap fun p => match p with | .constParam n => some n | _ => Option.none

/-- Whether a generic parameter is a lifetime parameter. -/
def isLifetimeParam : GenericParam → Bool
  | .lifetime _ => true
  | _ => false

namespace GenericsVisitor

/-!
Embedding of src/visitors/generics.rs.  The visitor owns a declared
generics list and a found deque; push_front is list cons, push_back is
append at the end.  Overridden methods: visit_type_reference,
visit_type_path, visit_expr_path, visit_generic_argument; every other
method is the syn default walk.  The expect calls of the source become
Except.error values.
-/

mutual

/-- Dispatch of syn visit_type, with the overridden method bodies
inlined into the matching arms.

The ref arm is visit_type_reference, lines 30 to 58 of generics.rs: a
reference must carry a lifetime; a declared, not yet found lifetime is
pushed to the front and the referent visited; otherwise the default
walk runs, which also just visits the referent.

The path arm is visit_type_path, lines 60 to 92: the last path segment
identifier is matched against declared type parameters; on a fresh
match it is pushed to the back with no further recursion, otherwise the
default walk over the path segments runs.

The tuple arm is the default walk over the elements. -/
def visit_type (d : List GenericParam) (found : List GenericParam) :
    Ty → Except String (List GenericParam)
  | .ref lt elem =>
    match lt with
    | Option.none => throw "expect a lifetime"
    | some l =>
      if (lifetimesOf d).contains l && !((lifetimesOf found).contains l) then
        visit_type d (GenericParam.lifetime l :: found) elem
      else
        visit_type d found elem
  | .path _lc segs =>
    (match segs.getLast? with
    | Option.none => throw "expect a path segment"
    | some seg =>
      if (typeParamsOf d).contains seg.ident && !((typeParamsOf found).contains seg.ident) then
        pure (found ++ [GenericParam.typeParam seg.ident])
      else
        visit_seg_list d found segs)
  | .tuple elems => visit_type_list d found elems

/-- Default walk of a tuple type: visit each element. -/
def visit_type_list (d : List GenericParam) (found : List GenericParam) :
    List Ty → Except String (List GenericParam)
  | [] => pure found
  | t :: ts => do
    let found1 ← visit_type d found t
    visit_type_list d found1 ts

/-- Default walk of path segments: visit the angle bracketed arguments
of each segment. -/
def visit_seg_list (d : List GenericParam) (found : List GenericParam) :
    List TySeg → Except String (List GenericParam)
  | [] => pure found
  | .mk _ PathArgs.none :: ss => visit_seg_list d found ss
  | .mk _ (PathArgs.angle args) :: ss => do
    let found1 ← visit_arg_list d found args
    visit_seg_list d found1 ss

/-- Walk of an angle bracketed argument list; the head is handled by
visit_generic_argument, lines 120 to 176 of generics.rs: a lifetime
argument not already found is pushed to the front (note: with no
declared-generics check).  A const argument that is a path expression
matches its last segment identifier against declared const parameters,
pushing to the back on a fresh match and falling back to the default
walk otherwise.  Everything else takes the default walk. -/
def visit_arg_list (d : List GenericParam) (found : List GenericParam) :
    List GenericArg → Except String (List GenericParam)
  | [] => pure found
  | .lifetime l :: as_ => do
    let found1 ←
      if !((lifetimesOf found).contains l) then
        pure (GenericParam.lifetime l :: found)
      else
        pure found
    visit_arg_list d found1 as_
  | .constArg (Expr.path lc csegs) :: as_ => do
    let found1 ←
      (match csegs.getLast? with
      | Option.none => (throw "expect a path segment" : Except String (List GenericParam))
      | some ident =>
        if (constParamsOf d).contains ident && !((constParamsOf found).contains ident) then
          pure (found ++ [GenericParam.constParam ident])
        else
          visit_expr d found (Expr.path lc csegs))
    visit_arg_list d found1 as_
  | .constArg e :: as_ => do
    let found1 ← visit_expr d found e
    visit_arg_list d found1 as_
  | .tyArg t :: as_ => do
    let found1 ← visit_type d found t
    visit_arg_list d found1 as_

/-- Default syn expression walk with visit_expr_path (lines 94 to 118
of generics.rs) inlined in the path arm: a bare single-identifier path
expression is matched against declared const parameters; a fresh match
is pushed to the back, otherwise the default walk, a no-op for a bare
path, runs.  Const expressions inside generic arguments route through
here. -/
def visit_expr (d : List GenericParam) (found : List GenericParam) :
    Expr → Except String (List GenericParam)
  | .path lc segs =>
    (match lc, segs with
    | false, [ident] =>
      if (constParamsOf d).contains ident && !((constParamsOf found).contains ident) then
        pure (found ++ [GenericParam.constParam ident])
      else
        pure found
    | _, _ => pure found)
  | .call _ f args => do
    let found1 ← visit_expr d found f
    visit_expr_list d found1 args
  | .cast e t => do
    let found1 ← visit_expr d found e
    visit_type d found1 t
  | .lit _ => pure found
  | .methodCall r args => do
    let found1 ← visit_expr d found r
    visit_expr_list d found1 args
  | .closure b => visit_expr d found b
  | .block stmts => visit_stmt_list d found stmts
  | .tryE e => visit_expr d found e

/-- Default walk of an argument list of expressions. -/
def visit_expr_list (d : List GenericParam) (found : List GenericParam) :
    List Expr → Except String (List GenericParam)
  | [] => pure found
  | e :: es => do
    let found1 ← visit_expr d found e
    visit_expr_list d found1 es

/-- Default walk of statements, descending into nested fn items. -/
def visit_stmt_list (d : List GenericParam) (found : List GenericParam) :
    List Stmt → Except String (List GenericParam)
  | [] => pure found
  | .exprStmt e :: ss => do
    let found1 ← visit_expr d found e
    visit_stmt_list d found1 ss
  | .localStmt Option.none :: ss => visit_stmt_list d found ss
  | .localStmt (some e) :: ss => do
    let found1 ← visit_expr d found e
    visit_stmt_list d found1 ss
  | .itemFn _ body :: ss => do
    let found1 ← visit_stmt_list d found body
    visit_stmt_list d found1 ss

end

end GenericsVisitor

/-- Runs the generics resolver over the ordered list of collected
argument types, threading the found deque, exactly as the call-site
extractor invokes visit_type once per cast type with a shared
accumulator that starts empty. -/
def resolveTypes (d : List GenericParam) (tys : List Ty) :
    Except String (List GenericParam) :=
  tys.foldlM (fun found t => GenericsVisitor.visit_type d found t) []

namespace EncounterOrder

/-!
Claim-side definition of first-encounter order, following the words of
C5: the order in which the walk over the collected argument types first
records each used generic parameter.  The walk below is the resolver
walk with every insertion appending at the back, so the resulting list
is exactly the sequence of first encounters; the resolver itself is
then compared against this list.
-/

mutual

/-- Encounter-order walk over a type; identical to
GenericsVisitor.visit_type except that a recorded lifetime is appended
at the back, in encounter position. -/
def visit_type (d : List GenericParam) (found : List GenericParam) :
    Ty → Except String (List GenericParam)
  | .ref lt elem =>
    match lt with
    | Option.none => throw "expect a lifetime"
    | some l =>
      if (lifetimesOf d).contains l && !((lifetimesOf found).contains l) then
        visit_type d (found ++ [GenericParam.lifetime l]) elem
      else
        visit_type d found elem
  | .path _lc segs =>
    (match segs.getLast? with
    | Option.none => throw "expect a path segment"
    | some seg =>
      if (typeParamsOf d).contains seg.ident && !((typeParamsOf found).contains seg.ident) then
        pure (found ++ [GenericParam.typeParam seg.ident])
      else
        visit_seg_list d found segs)
  | .tuple elems => visit_type_list d found elems

/-- Encounter-order walk of a tuple type. -/
def visit_type_list (d : List GenericParam) (found : List GenericParam) :
    List Ty → Except String (List GenericParam)
  | [] => pure found
  | t :: ts => do
    let found1 ← visit_type d found t
    visit_type_list d found1 ts

/-- Encounter-order walk of path segments. -/
def visit_seg_list (d : List GenericParam) (found : List GenericParam) :
    List TySeg → Except String (List GenericParam)
  | [] => pure found
  | .mk _ PathArgs.none :: ss => visit_seg_list d found ss
  | .mk _ (PathArgs.angle args) :: ss => do
    let found1 ← visit_arg_list d found args
    visit_seg_list d found1 ss

/-- Encounter-order walk of an angle bracketed argument list; the
recorded lifetime goes to the back, in encounter position. -/
def visit_arg_list (d : List GenericParam) (found : List GenericParam) :
    List GenericArg → Except String (List GenericParam)
  | [] => pure found
  | .lifetime l :: as_ => do
    let found1 ←
      if !((lifetimesOf found).contains l) then
        pure (found ++ [GenericParam.lifetime l])
      else
        pure found
    visit_arg_list d found1 as_
  | .constArg (Expr.path lc csegs) :: as_ => do
    let found1 ←
      (match csegs.getLast? with
      | Option.none => (throw "expect a path segment" : Except String (List GenericParam))
      | some ident =>
        if (constParamsOf d).contains ident && !((constParamsOf found).contains ident) then
          pure (found ++ [GenericParam.constParam ident])
        else
          visit_expr d found (Expr.path lc csegs))
    visit_arg_list d found1 as_
  | .constArg e :: as_ => do
    let found1 ← visit_expr d found e
    visit_arg_list d found1 as_
  | .tyArg t :: as_ => do
    let found1 ← visit_type d found t
    visit_arg_list d found1 as_

/-- Encounter-order walk over an expression. -/
def visit_expr (d : List GenericParam) (found : List GenericParam) :
    Expr → Except String (List GenericParam)
  | .path lc segs =>
    (match lc, segs with
    | false, [ident] =>
      if (constParamsOf d).contains ident && !((constParamsOf found).contains ident) then
        pure (found ++ [GenericParam.constParam ident])
      else
        pure found
    | _, _ => pure found)
  | .call _ f args => do
    let found1 ← visit_expr d found f
    visit_expr_list d found1 args
  | .cast e t => do
    let found1 ← visit_expr d found e
    visit_type d found1 t
  | .lit _ => pure found
  | .methodCall r args => do
    let found1 ← visit_expr d found r
    visit_expr_list d found1 args
  | .closure b => visit_expr d found b
  | .block stmts => visit_stmt_list d found stmts
  | .tryE e => visit_expr d found e

/-- Encounter-order walk of an expression list. -/
def visit_expr_list (d : List GenericParam) (found : List GenericParam) :
    List Expr → Except String (List GenericParam)
  | [] => pure found
  | e :: es => do
    let found1 ← visit_expr d found e
    visit_expr_list d found1 es

/-- Encounter-order walk of statements. -/
def visit_stmt_list (d : List GenericParam) (found : List GenericParam) :
    List Stmt → Except String (List GenericParam)
  | [] => pure found
  | .exprStmt e :: ss => do
    let found1 ← visit_expr d found e
    visit_stmt_list d found1 ss
  | .localStmt Option.none :: ss => visit_stmt_list d found ss
  | .localStmt (some e) :: ss => do
    let found1 ← visit_expr d found e
    visit_stmt_list d found1 ss
  | .itemFn _ body :: ss => do
    let found1 ← visit_stmt_list d found body
    visit_stmt_list d found1 ss

end

end EncounterOrder

/-- First-encounter order of the used generics across the collected
argument types, starting from an empty record. -/
def encounterTypes (d : List GenericParam) (tys : List Ty) :
    Except String (List GenericParam) :=
  tys.foldlM (fun found t => EncounterOrder.visit_type d found t) []

/-- Rearranges an encounter-order record into the shape the resolver
actually produces: lifetimes at the front in reverse encounter order
followed by type and const parameters in encounter order. -/
def canonicalOrder (ev : List GenericParam) : List GenericParam :=
  (ev.filter isLifetimeParam).reverse ++ ev.filter (fun p => !isLifetimeParam p)

/-- Follows the words of C5: all borrow-scope parameters before all
type and const parameters, and within each class the parameters in
first-encounter order of the walk. -/
def claimC5order (d : List GenericParam) (tys : List Ty) :
    Except String (List GenericParam) :=
  (encounterTypes d tys).map fun ev =>
    ev.filter isLifetimeParam ++ ev.filter (fun p => !isLifetimeParam p)

/-- Whether an attribute is the secondary marker: its meta path has a
single identifier equal to fnerr, as checked by
attr.meta.path().get_ident() at lines 161 to 173 of lib.rs. -/
def isFnerrAttr (a : List String) : Bool :=
  a = ["fnerr"]

/-- One variant of the synthesized failure enum, as pushed at lines 222
to 239 of lib.rs: the tag (the original callee identifier), the display
template expression carried through unmodified, the ordered unnamed
field types, and the positional indices spliced into the error
attribute tokens. -/
structure Variant where
  tag : String
  fmt : Expr
  fieldTys : List Ty
  fmtIndices : List Nat

/-- The synthesized enum under construction: its identifier and the
variants accumulated so far.  Attributes, visibility and the derive
list of ErrorVistor::new are fixed boilerplate that the claims do not
touch and are not carried here. -/
structure ItemEnum where
  ident : String
  variants : List Variant

/-- Lines 199 to 217 of lib.rs: each remaining argument must be a cast
expression; the value sub-expressions and the cast types are unzipped
into the new argument list and the unnamed field types, in order.  A
non-cast argument is the panic of the source. -/
def collectCastArgs : List Expr → Except String (List Expr × List Ty)
  | [] => pure ([], [])
  | Expr.cast e t :: rest => do
    let (es, ts) ← collectCastArgs rest
    pure (e :: es, t :: ts)
  | _ :: _ => throw "expect a cast expression"

namespace ErrorVistor

/-!
Embedding of the VisitMut pass ErrorVistor of src/lib.rs, lines 129 to
243.  Only visit_expr_call_mut is overridden; all other methods are the
syn default mutable walk, which rebuilds every node from its visited
children and, in particular, descends into nested items (Stmt::Item)
and into the types of cast expressions, including const expressions
nested in their generic arguments.
-/

mutual

/-- Default syn visit_expr_mut with the override for call expressions
inlined in the call arm (visit_expr_call_mut, lines 158 to 242 of
lib.rs): the fnerr markers are always removed from the attribute list;
if none was present the default walk visits callee then arguments;
otherwise the callee must be a bare single-identifier path, which is
prefixed with the enum identifier, the first argument is split off as
the display template, the remaining arguments must all be casts and are
replaced by their value sub-expressions, and one variant is appended to
the enum.  The argument sub-expressions of a marked call are not walked
further. -/
def visit_expr_mut (st : ItemEnum) :
    Expr → Except String (ItemEnum × Expr)
  | .call attrs f args =>
    let kept := attrs.filter fun a => !(isFnerrAttr a)
    if !(attrs.any fun a => isFnerrAttr a) then do
      let (st1, f1) ← visit_expr_mut st f
      let (st2, args1) ← visit_expr_list_mut st1 args
      pure (st2, .call kept f1 args1)
    else
      match f with
      | .path lc segs =>
        (match lc, segs with
        | false, [ident] =>
          (match args with
          | [] => throw "expect a format string"
          | fmt :: rest => do
            let (new_args, fields) ← collectCastArgs rest
            pure ({ st with
                      variants := st.variants ++
                        [⟨ident, fmt, fields, List.range fields.length⟩] },
                  Expr.call kept (.path false [st.ident, ident]) new_args))
        | _, _ => throw "expect a single identifier")
      | _ => throw "expect a path"
  | .path lc segs => pure (st, .path lc segs)
  | .cast e t => do
    let (st1, e1) ← visit_expr_mut st e
    let (st2, t1) ← visit_type_mut st1 t
    pure (st2, .cast e1 t1)
  | .lit s => pure (st, .lit s)
  | .methodCall r args => do
    let (st1, r1) ← visit_expr_mut st r
    let (st2, args1) ← visit_expr_list_mut st1 args
    pure (st2, .methodCall r1 args1)
  | .closure b => do
    let (st1, b1) ← visit_expr_mut st b
    pure (st1, .closure b1)
  | .block stmts => do
    let (st1, stmts1) ← visit_stmt_list_mut st stmts
    pure (st1, .block stmts1)
  | .tryE e => do
    let (st1, e1) ← visit_expr_mut st e
    pure (st1, .tryE e1)

/-- Default mutable walk of an expression list. -/
def visit_expr_list_mut (st : ItemEnum) :
    List Expr → Except String (ItemEnum × List Expr)
  | [] => pure (st, [])
  | e :: es => do
    let (st1, e1) ← visit_expr_mut st e
    let (st2, es1) ← visit_expr_list_mut st1 es
    pure (st2, e1 :: es1)

/-- Default mutable walk of statements; a nested fn item is descended
into, since syn visit_stmt_mut forwards Stmt::Item to visit_item_mut
which walks the nested function, body included. -/
def visit_stmt_list_mut (st : ItemEnum) :
    List Stmt → Except String (ItemEnum × List Stmt)
  | [] => pure (st, [])
  | .exprStmt e :: ss => do
    let (st1, e1) ← visit_expr_mut st e
    let (st2, ss1) ← visit_stmt_list_mut st1 ss
    pure (st2, .exprStmt e1 :: ss1)
  | .localStmt Option.none :: ss => do
    let (st1, ss1) ← visit_stmt_list_mut st ss
    pure (st1, .localStmt Option.none :: ss1)
  | .localStmt (some e) :: ss => do
    let (st1, e1) ← visit_expr_mut st e
    let (st2, ss1) ← visit_stmt_list_mut st1 ss
    pure (st2, .localStmt (some e1) :: ss1)
  | .itemFn n body :: ss => do
    let (st1, body1) ← visit_stmt_list_mut st body
    let (st2, ss1) ← visit_stmt_list_mut st1 ss
    pure (st2, .itemFn n body1 :: ss1)

/-- Default mutable walk of a type; const expressions in generic
arguments are expressions and are walked. -/
def visit_type_mut (st : ItemEnum) :
    Ty → Except String (ItemEnum × Ty)
  | .ref lt elem => do
    let (st1, elem1) ← visit_type_mut st elem
    pure (st1, .ref lt elem1)
  | .path lc segs => do
    let (st1, segs1) ← visit_seg_list_mut st segs
    pure (st1, .path lc segs1)
  | .tuple elems => do
    let (st1, elems1) ← visit_type_list_mut st elems
    pure (st1, .tuple elems1)

/-- Default mutable walk of a type list. -/
def visit_type_list_mut (st : ItemEnum) :
    List Ty → Except String (ItemEnum × List Ty)
  | [] => pure (st, [])
  | t :: ts => do
    let (st1, t1) ← visit_type_mut st t
    let (st2, ts1) ← visit_type_list_mut st1 ts
    pure (st2, t1 :: ts1)

/-- Default mutable walk of path segments. -/
def visit_seg_list_mut (st : ItemEnum) :
    List TySeg → Except String (ItemEnum × List TySeg)
  | [] => pure (st, [])
  | .mk i PathArgs.none :: ss => do
    let (st1, ss1) ← visit_seg_list_mut st ss
    pure (st1, .mk i PathArgs.none :: ss1)
  | .mk i (PathArgs.angle args) :: ss => do
    let (st1, args1) ← visit_arg_list_mut st args
    let (st2, ss1) ← visit_seg_list_mut st1 ss
    pure (st2, .mk i (PathArgs.angle args1) :: ss1)

/-- Default mutable walk of an angle bracketed argument list. -/
def visit_arg_list_mut (st : ItemEnum) :
    List GenericArg → Except String (ItemEnum × List GenericArg)
  | [] => pure (st, [])
  | .lifetime l :: as_ => do
    let (st1, as1) ← visit_arg_list_mut st as_
    pure (st1, .lifetime l :: as1)
  | .tyArg t :: as_ => do
    let (st1, t1) ← visit_type_mut st t
    let (st2, as1) ← visit_arg_list_mut st1 as_
    pure (st2, .tyArg t1 :: as1)
  | .constArg e :: as_ => do
    let (st1, e1) ← visit_expr_mut st e
    let (st2, as1) ← visit_arg_list_mut st1 as_
    pure (st2, .constArg e1 :: as1)

end

/-- ErrorVistor::new, lines 134 to 154 of lib.rs: an empty public enum
with the given identifier. -/
def new (error_ident : String) : ItemEnum :=
  { ident := error_ident, variants := [] }

end ErrorVistor

/-- Runs the extractor over a function body, as fnerror does at lines
70 to 74 of lib.rs: the visitor starts from the empty enum named by the
error identifier and mutably walks the block. -/
def runExtractor (error_ident : String) (body : List Stmt) :
    Except String (ItemEnum × List Stmt) :=
  ErrorVistor.visit_stmt_list_mut (ErrorVistor.new error_ident) body

/-- syn::ReturnType: either no arrow or an arrow with a type. -/
inductive RetTy where
  | default
  | ty (t : Ty)

/-- parse_return_type, lines 83 to 127 of lib.rs.  Only a path return
type is touched: its leading colon is set, the first segment must be
named Result (the expect of the source), an angle bracketed argument
list must have exactly one argument and receives the error identifier
as a second argument, and the path is rebuilt as std :: result ::
segment, discarding any trailing segments.  A return type that is
absent or not a path type passes through unchanged. -/
def parse_return_type (error_ident : String) : RetTy → Except String RetTy
  | .ty (Ty.path _lc segs) =>
    (match segs.head? with
    | Option.none => throw "expect Result of T"
    | some (TySeg.mk id sargs) =>
      if id = "Result" then do
        let seg1 ←
          match sargs with
          | PathArgs.angle args =>
            if args.length != 1 then
              (throw "expect Result of T, fnerror will generate a error for this" :
                Except String TySeg)
            else
              pure (TySeg.mk id (PathArgs.angle
                (args ++ [GenericArg.tyArg (Ty.path false [TySeg.mk error_ident PathArgs.none])])))
          | PathArgs.none => pure (TySeg.mk id sargs)
        pure (RetTy.ty (Ty.path true
          [TySeg.mk "std" PathArgs.none, TySeg.mk "result" PathArgs.none, seg1]))
      else throw "expect Result of T")
  | rt => pure rt

/-- The ReturnType structure of src/return_type.rs: the outcome-type
head identifier, the success type, and the optional explicit
failure-type identifier of the second slot.  Punctuation tokens are
dropped. -/
structure ReturnType where
  ident : String
  ok_type : Ty
  err_type : Option String

/-- The Parse implementation of ReturnType at lines 16 to 32 of
return_type.rs, modeled on the parsed tree instead of the token
stream: an arrow followed by an identifier that must equal Result, an
angle bracketed success type, and an optional trailing identifier as
the failure-type name.  A second slot that is not a bare identifier
does not parse, matching the token-level Option of Ident parse. -/
def ReturnType.parse (rt : RetTy) : Except String ReturnType :=
  match rt with
  | .ty (Ty.path false [TySeg.mk id (PathArgs.angle args)]) =>
    if id = "Result" then
      match args with
      | [GenericArg.tyArg t] => pure ⟨id, t, Option.none⟩
      | [GenericArg.tyArg t, GenericArg.tyArg (Ty.path false [TySeg.mk e PathArgs.none])] =>
        pure ⟨id, t, some e⟩
      | _ => throw "unexpected return type arguments"
    else throw "expect Result"
  | _ => throw "unexpected return type shape"

/-- Modelled from the spec: the external case-conversion collaborator
(an inflector-style utility, declared out of scope by the spec).  The
first letter and every letter following an underscore are uppercased
and underscores are dropped, which is PascalCase on snake case
identifiers. -/
def pascalAux : Bool → List Char → List Char
  | _, [] => []
  | _, '_' :: rest => pascalAux true rest
  | true, c :: rest => c.toUpper :: pascalAux false rest
  | false, c :: rest => c :: pascalAux false rest

/-- Modelled from the spec: PascalCase conversion of an identifier. -/
def toPascalCase (s : String) : String :=
  String.mk (pascalAux true s.data)

/-- Lines 62 to 66 of lib.rs: the derived failure-type identifier is
the function identifier in PascalCase with the suffix Error. -/
def derivedErrorIdent (fn_ident : String) : String :=
  toPascalCase fn_ident ++ "Error"

/-- Modelled from the spec: the failure-type-name selection of the
converged variant, whose driver consuming ReturnType.err_type is not
under src.  An explicit second slot is used verbatim; otherwise the
name is derived from the function identifier. -/
def chooseErrorName (fn_ident : String) (parsed : ReturnType) : String :=
  match parsed.err_type with
  | some e => e
  | Option.none => derivedErrorIdent fn_ident

/-!
Spec-side observation functions.  These are claim-side definitions
used to state the claims; each follows the words of the claim it
serves and is compared against the embedded engine.
-/

mutual

/-- Whether a fnerr marker remains anywhere in an expression (used to
state C9 and C10). -/
def exprHasFnerr : Expr → Bool
  | .call attrs f args =>
    attrs.any (fun a => isFnerrAttr a) || exprHasFnerr f || exprListHasFnerr args
  | .path _ _ => false
  | .cast e t => exprHasFnerr e || tyHasFnerr t
  | .lit _ => false
  | .methodCall r args => exprHasFnerr r || exprListHasFnerr args
  | .closure b => exprHasFnerr b
  | .block ss => stmtListHasFnerr ss
  | .tryE e => exprHasFnerr e

/-- Marker search over an expression list. -/
def exprListHasFnerr : List Expr → Bool
  | [] => false
  | e :: es => exprHasFnerr e || exprListHasFnerr es

/-- Marker search over statements, nested items included. -/
def stmtListHasFnerr : List Stmt → Bool
  | [] => false
  | .exprStmt e :: ss => exprHasFnerr e || stmtListHasFnerr ss
  | .localStmt Option.none :: ss => stmtListHasFnerr ss
  | .localStmt (some e) :: ss => exprHasFnerr e || stmtListHasFnerr ss
  | .itemFn _ body :: ss => stmtListHasFnerr body || stmtListHasFnerr ss

/-- Marker search inside a type (const generic expressions can hold
call expressions). -/
def tyHasFnerr : Ty → Bool
  | .ref _ elem => tyHasFnerr elem
  | .path _ segs => segListHasFnerr segs
  | .tuple elems => tyListHasFnerr elems

/-- Marker search over a type list. -/
def tyListHasFnerr : List Ty → Bool
  | [] => false
  | t :: ts => tyHasFnerr t || tyListHasFnerr ts

/-- Marker search over path segments. -/
def segListHasFnerr : List TySeg → Bool
  | [] => false
  | .mk _ PathArgs.none :: ss => segListHasFnerr ss
  | .mk _ (PathArgs.angle args) :: ss => argListHasFnerr args || segListHasFnerr ss

/-- Marker search over generic arguments. -/
def argListHasFnerr : List GenericArg → Bool
  | [] => false
  | .lifetime _ :: as_ => argListHasFnerr as_
  | .tyArg t :: as_ => tyHasFnerr t || argListHasFnerr as_
  | .constArg e :: as_ => exprHasFnerr e || argListHasFnerr as_

end

mutual

/-- Whether no marker-annotated call is nested inside the retained
argument values of another marker-annotated call: the cleanliness
condition under which the amended C9 guarantees a marker-free output
body. -/
def exprMarkedClean : Expr → Bool
  | .call attrs f args =>
    if attrs.any (fun a => isFnerrAttr a) then
      (match args with
      | [] => true
      | _fmt :: rest =>
        rest.all fun a =>
          match a with
          | Expr.cast v _ => !(exprHasFnerr v)
          | _ => true)
    else
      exprMarkedClean f && exprListMarkedClean args
  | .path _ _ => true
  | .cast e t => exprMarkedClean e && tyMarkedClean t
  | .lit _ => true
  | .methodCall r args => exprMarkedClean r && exprListMarkedClean args
  | .closure b => exprMarkedClean b
  | .block ss => stmtListMarkedClean ss
  | .tryE e => exprMarkedClean e

/-- Cleanliness over an expression list. -/
def exprListMarkedClean : List Expr → Bool
  | [] => true
  | e :: es => exprMarkedClean e && exprListMarkedClean es

/-- Cleanliness over statements. -/
def stmtListMarkedClean : List Stmt → Bool
  | [] => true
  | .exprStmt e :: ss => exprMarkedClean e && stmtListMarkedClean ss
  | .localStmt Option.none :: ss => stmtListMarkedClean ss
  | .localStmt (some e) :: ss => exprMarkedClean e && stmtListMarkedClean ss
  | .itemFn _ body :: ss => stmtListMarkedClean body && stmtListMarkedClean ss

/-- Cleanliness inside a type. -/
def tyMarkedClean : Ty → Bool
  | .ref _ elem => tyMarkedClean elem
  | .path _ segs => segListMarkedClean segs
  | .tuple elems => tyListMarkedClean elems

/-- Cleanliness over a type list. -/
def tyListMarkedClean : List Ty → Bool
  | [] => true
  | t :: ts => tyMarkedClean t && tyListMarkedClean ts

/-- Cleanliness over path segments. -/
def segListMarkedClean : List TySeg → Bool
  | [] => true
  | .mk _ PathArgs.none :: ss => segListMarkedClean ss
  | .mk _ (PathArgs.angle args) :: ss => argListMarkedClean args && segListMarkedClean ss

/-- Cleanliness over generic arguments. -/
def argListMarkedClean : List GenericArg → Bool
  | [] => true
  | .lifetime _ :: as_ => argListMarkedClean as_
  | .tyArg t :: as_ => tyMarkedClean t && argListMarkedClean as_
  | .constArg e :: as_ => exprMarkedClean e && argListMarkedClean as_

end

mutual

/-- The callee identifiers of the marker-annotated calls in discovery
order of the extractor walk (used by the amended C1): callee first,
then arguments, left to right, descending into nested items but not
into the subtrees of an already matched marked call. -/
def exprTags : Expr → List String
  | .call attrs f args =>
    if attrs.any (fun a => isFnerrAttr a) then
      (match f with
      | .path false [c] => [c]
      | _ => [])
    else
      exprTags f ++ exprListTags args
  | .path _ _ => []
  | .cast e t => exprTags e ++ tyTags t
  | .lit _ => []
  | .methodCall r args => exprTags r ++ exprListTags args
  | .closure b => exprTags b
  | .block ss => stmtListTags ss
  | .tryE e => exprTags e

/-- Discovery-order tags over an expression list. -/
def exprListTags : List Expr → List String
  | [] => []
  | e :: es => exprTags e ++ exprListTags es

/-- Discovery-order tags over statements, nested items included. -/
def stmtListTags : List Stmt → List String
  | [] => []
  | .exprStmt e :: ss => exprTags e ++ stmtListTags ss
  | .localStmt Option.none :: ss => stmtListTags ss
  | .localStmt (some e) :: ss => exprTags e ++ stmtListTags ss
  | .itemFn _ body :: ss => stmtListTags body ++ stmtListTags ss

/-- Discovery-order tags inside a type. -/
def tyTags : Ty → List String
  | .ref _ elem => tyTags elem
  | .path _ segs => segListTags segs
  | .tuple elems => tyListTags elems

/-- Discovery-order tags over a type list. -/
def tyListTags : List Ty → List String
  | [] => []
  | t :: ts => tyTags t ++ tyListTags ts

/-- Discovery-order tags over path segments. -/
def segListTags : List TySeg → List String
  | [] => []
  | .mk _ PathArgs.none :: ss => segListTags ss
  | .mk _ (PathArgs.angle args) :: ss => argListTags args ++ segListTags ss

/-- Discovery-order tags over generic arguments. -/
def argListTags : List GenericArg → List String
  | [] => []
  | .lifetime _ :: as_ => argListTags as_
  | .tyArg t :: as_ => tyTags t ++ argListTags as_
  | .constArg e :: as_ => exprTags e ++ argListTags as_

end

mutual

/-- Follows the words of C1: the number of marker-annotated call
expressions found in the body outside any nested item, the body of a
nested function definition being opaque to this count. -/
def exprMarkedCount : Expr → Nat
  | .call attrs f args =>
    (if attrs.any (fun a => isFnerrAttr a) then 1 else 0) +
      exprMarkedCount f + exprListMarkedCount args
  | .path _ _ => 0
  | .cast e t => exprMarkedCount e + tyMarkedCount t
  | .lit _ => 0
  | .methodCall r args => exprMarkedCount r + exprListMarkedCount args
  | .closure b => exprMarkedCount b
  | .block ss => stmtListMarkedCount ss
  | .tryE e => exprMarkedCount e

/-- Outside-items marked count over an expression list. -/
def exprListMarkedCount : List Expr → Nat
  | [] => 0
  | e :: es => exprMarkedCount e + exprListMarkedCount es

/-- Outside-items marked count over statements; a nested fn item
contributes nothing. -/
def stmtListMarkedCount : List Stmt → Nat
  | [] => 0
  | .exprStmt e :: ss => exprMarkedCount e + stmtListMarkedCount ss
  | .localStmt Option.none :: ss => stmtListMarkedCount ss
  | .localStmt (some e) :: ss => exprMarkedCount e + stmtListMarkedCount ss
  | .itemFn _ _ :: ss => stmtListMarkedCount ss

/-- Outside-items marked count inside a type. -/
def tyMarkedCount : Ty → Nat
  | .ref _ elem => tyMarkedCount elem
  | .path _ segs => segListMarkedCount segs
  | .tuple elems => tyListMarkedCount elems

/-- Outside-items marked count over a type list. -/
def tyListMarkedCount : List Ty → Nat
  | [] => 0
  | t :: ts => tyMarkedCount t + tyListMarkedCount ts

/-- Outside-items marked count over path segments. -/
def segListMarkedCount : List TySeg → Nat
  | [] => 0
  | .mk _ PathArgs.none :: ss => segListMarkedCount ss
  | .mk _ (PathArgs.angle args) :: ss => argListMarkedCount args + segListMarkedCount ss

/-- Outside-items marked count over generic arguments. -/
def argListMarkedCount : List GenericArg → Nat
  | [] => 0
  | .lifetime _ :: as_ => argListMarkedCount as_
  | .tyArg t :: as_ => tyMarkedCount t + argListMarkedCount as_
  | .constArg e :: as_ => exprMarkedCount e + argListMarkedCount as_

end

mutual

/-- Structural wellformedness under which the generics resolver never
fails (used to state C7): every reference type carries an explicit
lifetime, every type path has at least one segment, and every const
generic argument that is directly a path expression has at least one
segment. -/
def tyWf : Ty → Bool
  | .ref Option.none _ => false
  | .ref (some _) elem => tyWf elem
  | .path _ segs => !(segs.isEmpty) && segListWf segs
  | .tuple elems => tyListWf elems

/-- Wellformedness over a type list. -/
def tyListWf : List Ty → Bool
  | [] => true
  | t :: ts => tyWf t && tyListWf ts

/-- Wellformedness over path segments. -/
def segListWf : List TySeg → Bool
  | [] => true
  | .mk _ PathArgs.none :: ss => segListWf ss
  | .mk _ (PathArgs.angle args) :: ss => argListWf args && segListWf ss

/-- Wellformedness over generic arguments. -/
def argListWf : List GenericArg → Bool
  | [] => true
  | .lifetime _ :: as_ => argListWf as_
  | .tyArg t :: as_ => tyWf t && argListWf as_
  | .constArg (Expr.path lc csegs) :: as_ =>
    !(csegs.isEmpty) && exprWfG (Expr.path lc csegs) && argListWf as_
  | .constArg e :: as_ => exprWfG e && argListWf as_

/-- Wellformedness of expressions reachable from const generic
arguments. -/
def exprWfG : Expr → Bool
  | .path _ _ => true
  | .call _ f args => exprWfG f && exprListWfG args
  | .cast e t => exprWfG e && tyWf t
  | .lit _ => true
  | .methodCall r args => exprWfG r && exprListWfG args
  | .closure b => exprWfG b
  | .block ss => stmtListWfG ss
  | .tryE e => exprWfG e

/-- Wellformedness over an expression list. -/
def exprListWfG : List Expr → Bool
  | [] => true
  | e :: es => exprWfG e && exprListWfG es

/-- Wellformedness over statements. -/
def stmtListWfG : List Stmt → Bool
  | [] => true
  | .exprStmt e :: ss => exprWfG e && stmtListWfG ss
  | .localStmt Option.none :: ss => stmtListWfG ss
  | .localStmt (some e) :: ss => exprWfG e && stmtListWfG ss
  | .itemFn _ body :: ss => stmtListWfG body && stmtListWfG ss

end

/-!
Supporting lemmas and the structural theorems about the embedded
engines, followed by the claim theorems.
-/

@[simp] theorem lifetimesOf_nil : lifetimesOf [] = [] := rfl
@[simp] theorem lifetimesOf_cons_lt (n : String) (l : List GenericParam) :
    lifetimesOf (GenericParam.lifetime n :: l) = n :: lifetimesOf l := rfl
@[simp] theorem lifetimesOf_cons_tp (n : String) (l : List GenericParam) :
    lifetimesOf (GenericParam.typeParam n :: l) = lifetimesOf l := rfl
@[simp] theorem lifetimesOf_cons_cp (n : String) (l : List GenericParam) :
    lifetimesOf (GenericParam.constParam n :: l) = lifetimesOf l := rfl
@[simp] theorem typeParamsOf_nil : typeParamsOf [] = [] := rfl
@[simp] theorem typeParamsOf_cons_lt (n : String) (l : List GenericParam) :
    typeParamsOf (GenericParam.lifetime n :: l) = typeParamsOf l := rfl
@[simp] theorem typeParamsOf_cons_tp (n : String) (l : List GenericParam) :
    typeParamsOf (GenericParam.typeParam n :: l) = n :: typeParamsOf l := rfl
@[simp] theorem typeParamsOf_cons_cp (n : String) (l : List GenericParam) :
    typeParamsOf (GenericParam.constParam n :: l) = typeParamsOf l := rfl
@[simp] theorem constParamsOf_nil : constParamsOf [] = [] := rfl
@[simp] theorem constParamsOf_cons_lt (n : String) (l : List GenericParam) :
    constParamsOf (GenericParam.lifetime n :: l) = constParamsOf l := rfl
@[simp] theorem constParamsOf_cons_tp (n : String) (l : List GenericParam) :
    constParamsOf (GenericParam.typeParam n :: l) = constParamsOf l := rfl
@[simp] theorem constParamsOf_cons_cp (n : String) (l : List GenericParam) :
    constParamsOf (GenericParam.constParam n :: l) = n :: constParamsOf l := rfl
@[simp] theorem isLifetimeParam_lt (n : String) : isLifetimeParam (GenericParam.lifetime n) = true := rfl
@[simp] theorem isLifetimeParam_tp (n : String) : isLifetimeParam (GenericParam.typeParam n) = false := rfl
@[simp] theorem isLifetimeParam_cp (n : String) : isLifetimeParam (GenericParam.constParam n) = false := rfl

theorem contains_reverse {l : List String} {a : String} :
    (l.reverse).contains a = l.contains a := by
  simp [List.contains_eq_any_beq]

theorem contains_append {l1 l2 : List String} {a : String} :
    (l1 ++ l2).contains a = (l1.contains a || l2.contains a) := by
  simp [List.contains_eq_any_beq]

theorem lifetimesOf_filter_lt (ev : List GenericParam) :
    lifetimesOf (ev.filter isLifetimeParam) = lifetimesOf ev := by
  induction ev with
  | nil => rfl
  | cons p ev ih => cases p <;> simp [List.filter_cons, ih]

theorem lifetimesOf_filter_not_lt (ev : List GenericParam) :
    lifetimesOf (ev.filter fun p => !isLifetimeParam p) = [] := by
  induction ev with
  | nil => rfl
  | cons p ev ih => cases p <;> simp [List.filter_cons, ih]

theorem typeParamsOf_filter_lt (ev : List GenericParam) :
    typeParamsOf (ev.filter isLifetimeParam) = [] := by
  induction ev with
  | nil => rfl
  | cons p ev ih => cases p <;> simp [List.filter_cons, ih]

theorem typeParamsOf_filter_not_lt (ev : List GenericParam) :
    typeParamsOf (ev.filter fun p => !isLifetimeParam p) = typeParamsOf ev := by
  induction ev with
  | nil => rfl
  | cons p ev ih => cases p <;> simp [List.filter_cons, ih]

theorem constParamsOf_filter_lt (ev : List GenericParam) :
    constParamsOf (ev.filter isLifetimeParam) = [] := by
  induction ev with
  | nil => rfl
  | cons p ev ih => cases p <;> simp [List.filter_cons, ih]

theorem constParamsOf_filter_not_lt (ev : List GenericParam) :
    constParamsOf (ev.filter fun p => !isLifetimeParam p) = constParamsOf ev := by
  induction ev with
  | nil => rfl
  | cons p ev ih => cases p <;> simp [List.filter_cons, ih]

theorem lifetimesOf_canonical_contains (ev : List GenericParam) (l : String) :
    (lifetimesOf (canonicalOrder ev)).contains l = (lifetimesOf ev).contains l := by
  simp only [canonicalOrder, lifetimesOf]
  rw [List.filterMap_append]
  rw [List.filterMap_reverse]
  show ((lifetimesOf (ev.filter isLifetimeParam)).reverse ++
    lifetimesOf (ev.filter fun p => !isLifetimeParam p)).contains l = _
  rw [lifetimesOf_filter_lt, lifetimesOf_filter_not_lt, List.append_nil, contains_reverse]
  rfl

theorem typeParamsOf_canonical_contains (ev : List GenericParam) (n : String) :
    (typeParamsOf (canonicalOrder ev)).contains n = (typeParamsOf ev).contains n := by
  simp only [canonicalOrder, typeParamsOf]
  rw [List.filterMap_append, List.filterMap_reverse]
  show ((typeParamsOf (ev.filter isLifetimeParam)).reverse ++
    typeParamsOf (ev.filter fun p => !isLifetimeParam p)).contains n = _
  rw [typeParamsOf_filter_lt, typeParamsOf_filter_not_lt]
  rfl

theorem constParamsOf_canonical_contains (ev : List GenericParam) (n : String) :
    (constParamsOf (canonicalOrder ev)).contains n = (constParamsOf ev).contains n := by
  simp only [canonicalOrder, constParamsOf]
  rw [List.filterMap_append, List.filterMap_reverse]
  show ((constParamsOf (ev.filter isLifetimeParam)).reverse ++
    constParamsOf (ev.filter fun p => !isLifetimeParam p)).contains n = _
  rw [constParamsOf_filter_lt, constParamsOf_filter_not_lt]
  rfl

theorem canonical_push_lt (ev : List GenericParam) (l : String) :
    canonicalOrder (ev ++ [GenericParam.lifetime l]) = GenericParam.lifetime l :: canonicalOrder ev := by
  simp [canonicalOrder, List.filter_append]

theorem canonical_push_tp (ev : List GenericParam) (n : String) :
    canonicalOrder (ev ++ [GenericParam.typeParam n]) = canonicalOrder ev ++ [GenericParam.typeParam n] := by
  simp [canonicalOrder, List.filter_append]

theorem canonical_push_cp (ev : List GenericParam) (n : String) :
    canonicalOrder (ev ++ [GenericParam.constParam n]) = canonicalOrder ev ++ [GenericParam.constParam n] := by
  simp [canonicalOrder, List.filter_append]



@[simp] theorem ebind_ok {α β : Type} (a : α) (k : α → Except String β) :
    (do let x ← (Except.ok a : Except String α); k x) = k a := rfl

@[simp] theorem ebind_error {α β : Type} (e : String) (k : α → Except String β) :
    (do let x ← (Except.error e : Except String α); k x) = Except.error e := rfl

@[simp] theorem emap_ok {α β : Type} (f : α → β) (a : α) :
    (Except.ok a : Except String α).map f = Except.ok (f a) := rfl

@[simp] theorem emap_error {α β : Type} (f : α → β) (e : String) :
    (Except.error e : Except String α).map f = (Except.error e : Except String β) := rfl

mutual

theorem sim_visit_type (d : List GenericParam) (t : Ty) :
    ∀ ev, GenericsVisitor.visit_type d (canonicalOrder ev) t =
      (EncounterOrder.visit_type d ev t).map canonicalOrder := by
  cases t with
  | ref lt elem =>
    intro ev
    cases lt with
    | none => rfl
    | some l =>
      rw [GenericsVisitor.visit_type, EncounterOrder.visit_type]
      rw [lifetimesOf_canonical_contains]
      by_cases hg : ((lifetimesOf d).contains l && !((lifetimesOf ev).contains l)) = true
      · rw [if_pos hg, if_pos hg, ← canonical_push_lt]
        exact sim_visit_type d elem _
      · rw [if_neg hg, if_neg hg]
        exact sim_visit_type d elem ev
  | path lc segs =>
    intro ev
    rw [GenericsVisitor.visit_type, EncounterOrder.visit_type]
    cases hseg : segs.getLast? with
    | none => rfl
    | some seg =>
      dsimp only
      rw [typeParamsOf_canonical_contains]
      by_cases hg : ((typeParamsOf d).contains seg.ident &&
          !((typeParamsOf ev).contains seg.ident)) = true
      · rw [if_pos hg, if_pos hg, ← canonical_push_tp]
        rfl
      · rw [if_neg hg, if_neg hg]
        exact sim_visit_seg_list d segs ev
  | tuple elems =>
    intro ev
    rw [GenericsVisitor.visit_type, EncounterOrder.visit_type]
    exact sim_visit_type_list d elems ev

theorem sim_visit_type_list (d : List GenericParam) (ts : List Ty) :
    ∀ ev, GenericsVisitor.visit_type_list d (canonicalOrder ev) ts =
      (EncounterOrder.visit_type_list d ev ts).map canonicalOrder := by
  cases ts with
  | nil => intro ev; rfl
  | cons t ts =>
    intro ev
    rw [GenericsVisitor.visit_type_list, EncounterOrder.visit_type_list]
    rw [sim_visit_type d t ev]
    cases h : EncounterOrder.visit_type d ev t with
    | error e => rfl
    | ok ev1 => exact sim_visit_type_list d ts ev1

theorem sim_visit_seg_list (d : List GenericParam) (ss : List TySeg) :
    ∀ ev, GenericsVisitor.visit_seg_list d (canonicalOrder ev) ss =
      (EncounterOrder.visit_seg_list d ev ss).map canonicalOrder := by
  cases ss with
  | nil => intro ev; rfl
  | cons s ss =>
    cases s with
    | mk i pa =>
      cases pa with
      | none =>
        intro ev
        rw [GenericsVisitor.visit_seg_list, EncounterOrder.visit_seg_list]
        exact sim_visit_seg_list d ss ev
      | angle args =>
        intro ev
        rw [GenericsVisitor.visit_seg_list, EncounterOrder.visit_seg_list]
        rw [sim_visit_arg_list d args ev]
        cases h : EncounterOrder.visit_arg_list d ev args with
        | error e => rfl
        | ok ev1 => exact sim_visit_seg_list d ss ev1

theorem sim_visit_arg_list (d : List GenericParam) (as_ : List GenericArg) :
    ∀ ev, GenericsVisitor.visit_arg_list d (canonicalOrder ev) as_ =
      (EncounterOrder.visit_arg_list d ev as_).map canonicalOrder := by
  cases as_ with
  | nil => intro ev; rfl
  | cons a as_ =>
    cases a with
    | lifetime l =>
      intro ev
      rw [GenericsVisitor.visit_arg_list, EncounterOrder.visit_arg_list]
      rw [lifetimesOf_canonical_contains]
      by_cases hg : (!((lifetimesOf ev).contains l)) = true
      · rw [if_pos hg, if_pos hg]
        show GenericsVisitor.visit_arg_list d (GenericParam.lifetime l :: canonicalOrder ev) as_ =
          (EncounterOrder.visit_arg_list d (ev ++ [GenericParam.lifetime l]) as_).map canonicalOrder
        rw [← canonical_push_lt]
        exact sim_visit_arg_list d as_ _
      · rw [if_neg hg, if_neg hg]
        exact sim_visit_arg_list d as_ ev
    | tyArg t =>
      intro ev
      rw [GenericsVisitor.visit_arg_list, EncounterOrder.visit_arg_list]
      rw [sim_visit_type d t ev]
      cases h : EncounterOrder.visit_type d ev t with
      | error e => rfl
      | ok ev1 => exact sim_visit_arg_list d as_ ev1
    | constArg e =>
      cases e with
      | path lc csegs =>
        intro ev
        rw [GenericsVisitor.visit_arg_list, EncounterOrder.visit_arg_list]
        cases hseg : csegs.getLast? with
        | none => rfl
        | some ident =>
          dsimp only
          rw [constParamsOf_canonical_contains]
          by_cases hg : ((constParamsOf d).contains ident &&
              !((constParamsOf ev).contains ident)) = true
          · rw [if_pos hg, if_pos hg]
            show GenericsVisitor.visit_arg_list d (canonicalOrder ev ++ [GenericParam.constParam ident]) as_ =
              (EncounterOrder.visit_arg_list d (ev ++ [GenericParam.constParam ident]) as_).map canonicalOrder
            rw [← canonical_push_cp]
            exact sim_visit_arg_list d as_ _
          · rw [if_neg hg, if_neg hg]
            rw [sim_visit_expr d (Expr.path lc csegs) ev]
            cases h : EncounterOrder.visit_expr d ev (Expr.path lc csegs) with
            | error e => rfl
            | ok ev1 => exact sim_visit_arg_list d as_ ev1
      | call attrs f args =>
        intro ev
        simp only [GenericsVisitor.visit_arg_list, EncounterOrder.visit_arg_list]
        rw [sim_visit_expr d (Expr.call attrs f args) ev]
        cases h : EncounterOrder.visit_expr d ev (Expr.call attrs f args) with
        | error e => rfl
        | ok ev1 => exact sim_visit_arg_list d as_ ev1
      | cast e2 t =>
        intro ev
        simp only [GenericsVisitor.visit_arg_list, EncounterOrder.visit_arg_list]
        rw [sim_visit_expr d (Expr.cast e2 t) ev]
        cases h : EncounterOrder.visit_expr d ev (Expr.cast e2 t) with
        | error e => rfl
        | ok ev1 => exact sim_visit_arg_list d as_ ev1
      | lit s =>
        intro ev
        simp only [GenericsVisitor.visit_arg_list, EncounterOrder.visit_arg_list]
        rw [sim_visit_expr d (Expr.lit s) ev]
        cases h : EncounterOrder.visit_expr d ev (Expr.lit s) with
        | error e => rfl
        | ok ev1 => exact sim_visit_arg_list d as_ ev1
      | methodCall r args =>
        intro ev
        simp only [GenericsVisitor.visit_arg_list, EncounterOrder.visit_arg_list]
        rw [sim_visit_expr d (Expr.methodCall r args) ev]
        cases h : EncounterOrder.visit_expr d ev (Expr.methodCall r args) with
        | error e => rfl
        | ok ev1 => exact sim_visit_arg_list d as_ ev1
      | closure b =>
        intro ev
        simp only [GenericsVisitor.visit_arg_list, EncounterOrder.visit_arg_list]
        rw [sim_visit_expr d (Expr.closure b) ev]
        cases h : EncounterOrder.visit_expr d ev (Expr.closure b) with
        | error e => rfl
        | ok ev1 => exact sim_visit_arg_list d as_ ev1
      | block ss =>
        intro ev
        simp only [GenericsVisitor.visit_arg_list, EncounterOrder.visit_arg_list]
        rw [sim_visit_expr d (Expr.block ss) ev]
        cases h : EncounterOrder.visit_expr d ev (Expr.block ss) with
        | error e => rfl
        | ok ev1 => exact sim_visit_arg_list d as_ ev1
      | tryE e2 =>
        intro ev
        simp only [GenericsVisitor.visit_arg_list, EncounterOrder.visit_arg_list]
        rw [sim_visit_expr d (Expr.tryE e2) ev]
        cases h : EncounterOrder.visit_expr d ev (Expr.tryE e2) with
        | error e => rfl
        | ok ev1 => exact sim_visit_arg_list d as_ ev1

theorem sim_visit_expr (d : List GenericParam) (e : Expr) :
    ∀ ev, GenericsVisitor.visit_expr d (canonicalOrder ev) e =
      (EncounterOrder.visit_expr d ev e).map canonicalOrder := by
  cases e with
  | path lc segs =>
    intro ev
    match lc, segs with
    | true, segs => rfl
    | false, [] => rfl
    | false, x :: y :: rest => rfl
    | false, [ident] =>
      show (if ((constParamsOf d).contains ident &&
              !((constParamsOf (canonicalOrder ev)).contains ident)) = true then
              pure (canonicalOrder ev ++ [GenericParam.constParam ident])
            else pure (canonicalOrder ev) : Except String (List GenericParam)) =
        (if ((constParamsOf d).contains ident && !((constParamsOf ev).contains ident)) = true then
            (pure (ev ++ [GenericParam.constParam ident]) : Except String (List GenericParam))
          else pure ev).map canonicalOrder
      rw [constParamsOf_canonical_contains]
      by_cases hg : ((constParamsOf d).contains ident &&
          !((constParamsOf ev).contains ident)) = true
      · rw [if_pos hg, if_pos hg, ← canonical_push_cp]
        rfl
      · rw [if_neg hg, if_neg hg]
        rfl
  | call attrs f args =>
    intro ev
    rw [GenericsVisitor.visit_expr, EncounterOrder.visit_expr]
    rw [sim_visit_expr d f ev]
    cases h : EncounterOrder.visit_expr d ev f with
    | error e => rfl
    | ok ev1 => exact sim_visit_expr_list d args ev1
  | cast e2 t =>
    intro ev
    rw [GenericsVisitor.visit_expr, EncounterOrder.visit_expr]
    rw [sim_visit_expr d e2 ev]
    cases h : EncounterOrder.visit_expr d ev e2 with
    | error e => rfl
    | ok ev1 => exact sim_visit_type d t ev1
  | lit s => intro ev; rfl
  | methodCall r args =>
    intro ev
    rw [GenericsVisitor.visit_expr, EncounterOrder.visit_expr]
    rw [sim_visit_expr d r ev]
    cases h : EncounterOrder.visit_expr d ev r with
    | error e => rfl
    | ok ev1 => exact sim_visit_expr_list d args ev1
  | closure b =>
    intro ev
    rw [GenericsVisitor.visit_expr, EncounterOrder.visit_expr]
    exact sim_visit_expr d b ev
  | block ss =>
    intro ev
    rw [GenericsVisitor.visit_expr, EncounterOrder.visit_expr]
    exact sim_visit_stmt_list d ss ev
  | tryE e2 =>
    intro ev
    rw [GenericsVisitor.visit_expr, EncounterOrder.visit_expr]
    exact sim_visit_expr d e2 ev

theorem sim_visit_expr_list (d : List GenericParam) (es : List Expr) :
    ∀ ev, GenericsVisitor.visit_expr_list d (canonicalOrder ev) es =
      (EncounterOrder.visit_expr_list d ev es).map canonicalOrder := by
  cases es with
  | nil => intro ev; rfl
  | cons e es =>
    intro ev
    rw [GenericsVisitor.visit_expr_list, EncounterOrder.visit_expr_list]
    rw [sim_visit_expr d e ev]
    cases h : EncounterOrder.visit_expr d ev e with
    | error e2 => rfl
    | ok ev1 => exact sim_visit_expr_list d es ev1

theorem sim_visit_stmt_list (d : List GenericParam) (ss : List Stmt) :
    ∀ ev, GenericsVisitor.visit_stmt_list d (canonicalOrder ev) ss =
      (EncounterOrder.visit_stmt_list d ev ss).map canonicalOrder := by
  cases ss with
  | nil => intro ev; rfl
  | cons s ss =>
    cases s with
    | exprStmt e =>
      intro ev
      rw [GenericsVisitor.visit_stmt_list, EncounterOrder.visit_stmt_list]
      rw [sim_visit_expr d e ev]
      cases h : EncounterOrder.visit_expr d ev e with
      | error e2 => rfl
      | ok ev1 => exact sim_visit_stmt_list d ss ev1
    | localStmt oi =>
      cases oi with
      | none =>
        intro ev
        rw [GenericsVisitor.visit_stmt_list, EncounterOrder.visit_stmt_list]
        exact sim_visit_stmt_list d ss ev
      | some e =>
        intro ev
        rw [GenericsVisitor.visit_stmt_list, EncounterOrder.visit_stmt_list]
        rw [sim_visit_expr d e ev]
        cases h : EncounterOrder.visit_expr d ev e with
        | error e2 => rfl
        | ok ev1 => exact sim_visit_stmt_list d ss ev1
    | itemFn n body =>
      intro ev
      rw [GenericsVisitor.visit_stmt_list, EncounterOrder.visit_stmt_list]
      rw [sim_visit_stmt_list d body ev]
      cases h : EncounterOrder.visit_stmt_list d ev body with
      | error e2 => rfl
      | ok ev1 => exact sim_visit_stmt_list d ss ev1

end

theorem resolveTypes_eq_canonical (d : List GenericParam) (tys : List Ty) :
    resolveTypes d tys = (encounterTypes d tys).map canonicalOrder := by
  have main : ∀ (l : List Ty) (ev : List GenericParam),
      l.foldlM (fun found t => GenericsVisitor.visit_type d found t) (canonicalOrder ev) =
      (l.foldlM (fun found t => EncounterOrder.visit_type d found t) ev).map canonicalOrder := by
    intro l
    induction l with
    | nil => intro ev; rfl
    | cons t l ih =>
      intro ev
      rw [List.foldlM_cons, List.foldlM_cons]
      rw [sim_visit_type d t ev]
      cases h : EncounterOrder.visit_type d ev t with
      | error e => rfl
      | ok ev1 => exact ih ev1
  have h0 : (canonicalOrder []) = ([] : List GenericParam) := rfl
  calc resolveTypes d tys
      = tys.foldlM (fun found t => GenericsVisitor.visit_type d found t) (canonicalOrder []) := by
        rw [h0]; rfl
    _ = (tys.foldlM (fun found t => EncounterOrder.visit_type d found t) []).map canonicalOrder :=
        main tys []
    _ = (encounterTypes d tys).map canonicalOrder := rfl

mutual

theorem wf_visit_type (t : Ty) :
    ∀ (d found : List GenericParam), tyWf t = true →
      ∃ out, GenericsVisitor.visit_type d found t = .ok out := by
  cases t with
  | ref lt elem =>
    intro d found hwf
    cases lt with
    | none => exact absurd hwf (by simp [tyWf])
    | some l =>
      rw [tyWf] at hwf
      rw [GenericsVisitor.visit_type]
      by_cases hg : ((lifetimesOf d).contains l && !((lifetimesOf found).contains l)) = true
      · rw [if_pos hg]
        exact wf_visit_type elem d _ hwf
      · rw [if_neg hg]
        exact wf_visit_type elem d found hwf
  | path lc segs =>
    intro d found hwf
    rw [tyWf, Bool.and_eq_true] at hwf
    rw [GenericsVisitor.visit_type]
    cases hseg : segs.getLast? with
    | none =>
      rw [List.getLast?_eq_none_iff] at hseg
      rw [hseg] at hwf
      simp at hwf
    | some seg =>
      dsimp only
      by_cases hg : ((typeParamsOf d).contains seg.ident &&
          !((typeParamsOf found).contains seg.ident)) = true
      · rw [if_pos hg]
        exact ⟨_, rfl⟩
      · rw [if_neg hg]
        exact wf_visit_seg_list segs d found hwf.2
  | tuple elems =>
    intro d found hwf
    rw [tyWf] at hwf
    rw [GenericsVisitor.visit_type]
    exact wf_visit_type_list elems d found hwf

theorem wf_visit_type_list (ts : List Ty) :
    ∀ (d found : List GenericParam), tyListWf ts = true →
      ∃ out, GenericsVisitor.visit_type_list d found ts = .ok out := by
  cases ts with
  | nil => intro d found _; exact ⟨found, rfl⟩
  | cons t ts =>
    intro d found hwf
    rw [tyListWf, Bool.and_eq_true] at hwf
    rw [GenericsVisitor.visit_type_list]
    obtain ⟨o1, h1⟩ := wf_visit_type t d found hwf.1
    rw [h1]
    exact wf_visit_type_list ts d o1 hwf.2

theorem wf_visit_seg_list (ss : List TySeg) :
    ∀ (d found : List GenericParam), segListWf ss = true →
      ∃ out, GenericsVisitor.visit_seg_list d found ss = .ok out := by
  cases ss with
  | nil => intro d found _; exact ⟨found, rfl⟩
  | cons s ss =>
    cases s with
    | mk i pa =>
      cases pa with
      | none =>
        intro d found hwf
        rw [segListWf] at hwf
        rw [GenericsVisitor.visit_seg_list]
        exact wf_visit_seg_list ss d found hwf
      | angle args =>
        intro d found hwf
        rw [segListWf, Bool.and_eq_true] at hwf
        rw [GenericsVisitor.visit_seg_list]
        obtain ⟨o1, h1⟩ := wf_visit_arg_list args d found hwf.1
        rw [h1]
        exact wf_visit_seg_list ss d o1 hwf.2

theorem wf_visit_arg_list (as_ : List GenericArg) :
    ∀ (d found : List GenericParam), argListWf as_ = true →
      ∃ out, GenericsVisitor.visit_arg_list d found as_ = .ok out := by
  cases as_ with
  | nil => intro d found _; exact ⟨found, rfl⟩
  | cons a as_ =>
    cases a with
    | lifetime l =>
      intro d found hwf
      rw [argListWf] at hwf
      rw [GenericsVisitor.visit_arg_list]
      by_cases hg : (!((lifetimesOf found).contains l)) = true
      · rw [if_pos hg]
        exact wf_visit_arg_list as_ d _ hwf
      · rw [if_neg hg]
        exact wf_visit_arg_list as_ d found hwf
    | tyArg t =>
      intro d found hwf
      rw [argListWf, Bool.and_eq_true] at hwf
      rw [GenericsVisitor.visit_arg_list]
      obtain ⟨o1, h1⟩ := wf_visit_type t d found hwf.1
      rw [h1]
      exact wf_visit_arg_list as_ d o1 hwf.2
    | constArg e =>
      cases e with
      | path lc csegs =>
        intro d found hwf
        rw [argListWf, Bool.and_eq_true, Bool.and_eq_true] at hwf
        obtain ⟨⟨hne, hwe⟩, hrest⟩ := hwf
        rw [GenericsVisitor.visit_arg_list]
        cases hseg : csegs.getLast? with
        | none =>
          rw [List.getLast?_eq_none_iff] at hseg
          rw [hseg] at hne
          simp at hne
        | some ident =>
          dsimp only
          by_cases hg : ((constParamsOf d).contains ident &&
              !((constParamsOf found).contains ident)) = true
          · rw [if_pos hg]
            exact wf_visit_arg_list as_ d _ hrest
          · rw [if_neg hg]
            obtain ⟨o1, h1⟩ := wf_visit_expr (Expr.path lc csegs) d found hwe
            rw [h1]
            exact wf_visit_arg_list as_ d o1 hrest
      | call attrs f args =>
        intro d found hwf
        simp only [argListWf] at hwf
        rw [Bool.and_eq_true] at hwf
        simp only [GenericsVisitor.visit_arg_list]
        obtain ⟨o1, h1⟩ := wf_visit_expr (Expr.call attrs f args) d found hwf.1
        rw [h1]
        exact wf_visit_arg_list as_ d o1 hwf.2
      | cast e2 t =>
        intro d found hwf
        simp only [argListWf] at hwf
        rw [Bool.and_eq_true] at hwf
        simp only [GenericsVisitor.visit_arg_list]
        obtain ⟨o1, h1⟩ := wf_visit_expr (Expr.cast e2 t) d found hwf.1
        rw [h1]
        exact wf_visit_arg_list as_ d o1 hwf.2
      | lit s =>
        intro d found hwf
        simp only [argListWf] at hwf
        rw [Bool.and_eq_true] at hwf
        simp only [GenericsVisitor.visit_arg_list]
        obtain ⟨o1, h1⟩ := wf_visit_expr (Expr.lit s) d found hwf.1
        rw [h1]
        exact wf_visit_arg_list as_ d o1 hwf.2
      | methodCall r args =>
        intro d found hwf
        simp only [argListWf] at hwf
        rw [Bool.and_eq_true] at hwf
        simp only [GenericsVisitor.visit_arg_list]
        obtain ⟨o1, h1⟩ := wf_visit_expr (Expr.methodCall r args) d found hwf.1
        rw [h1]
        exact wf_visit_arg_list as_ d o1 hwf.2
      | closure b =>
        intro d found hwf
        simp only [argListWf] at hwf
        rw [Bool.and_eq_true] at hwf
        simp only [GenericsVisitor.visit_arg_list]
        obtain ⟨o1, h1⟩ := wf_visit_expr (Expr.closure b) d found hwf.1
        rw [h1]
        exact wf_visit_arg_list as_ d o1 hwf.2
      | block ss =>
        intro d found hwf
        simp only [argListWf] at hwf
        rw [Bool.and_eq_true] at hwf
        simp only [GenericsVisitor.visit_arg_list]
        obtain ⟨o1, h1⟩ := wf_visit_expr (Expr.block ss) d found hwf.1
        rw [h1]
        exact wf_visit_arg_list as_ d o1 hwf.2
      | tryE e2 =>
        intro d found hwf
        simp only [argListWf] at hwf
        rw [Bool.and_eq_true] at hwf
        simp only [GenericsVisitor.visit_arg_list]
        obtain ⟨o1, h1⟩ := wf_visit_expr (Expr.tryE e2) d found hwf.1
        rw [h1]
        exact wf_visit_arg_list as_ d o1 hwf.2

theorem wf_visit_expr (e : Expr) :
    ∀ (d found : List GenericParam), exprWfG e = true →
      ∃ out, GenericsVisitor.visit_expr d found e = .ok out := by
  cases e with
  | path lc segs =>
    intro d found _
    match lc, segs with
    | true, segs => exact ⟨found, rfl⟩
    | false, [] => exact ⟨found, rfl⟩
    | false, x :: y :: rest => exact ⟨found, rfl⟩
    | false, [ident] =>
      show ∃ out, (if ((constParamsOf d).contains ident &&
          !((constParamsOf found).contains ident)) = true then
          pure (found ++ [GenericParam.constParam ident])
        else (pure found : Except String (List GenericParam))) = .ok out
      by_cases hg : ((constParamsOf d).contains ident &&
          !((constParamsOf found).contains ident)) = true
      · rw [if_pos hg]; exact ⟨_, rfl⟩
      · rw [if_neg hg]; exact ⟨_, rfl⟩
  | call attrs f args =>
    intro d found hwf
    rw [exprWfG, Bool.and_eq_true] at hwf
    rw [GenericsVisitor.visit_expr]
    obtain ⟨o1, h1⟩ := wf_visit_expr f d found hwf.1
    rw [h1]
    exact wf_visit_expr_list args d o1 hwf.2
  | cast e2 t =>
    intro d found hwf
    rw [exprWfG, Bool.and_eq_true] at hwf
    rw [GenericsVisitor.visit_expr]
    obtain ⟨o1, h1⟩ := wf_visit_expr e2 d found hwf.1
    rw [h1]
    exact wf_visit_type t d o1 hwf.2
  | lit s => intro d found _; exact ⟨found, rfl⟩
  | methodCall r args =>
    intro d found hwf
    rw [exprWfG, Bool.and_eq_true] at hwf
    rw [GenericsVisitor.visit_expr]
    obtain ⟨o1, h1⟩ := wf_visit_expr r d found hwf.1
    rw [h1]
    exact wf_visit_expr_list args d o1 hwf.2
  | closure b =>
    intro d found hwf
    rw [exprWfG] at hwf
    rw [GenericsVisitor.visit_expr]
    exact wf_visit_expr b d found hwf
  | block ss =>
    intro d found hwf
    rw [exprWfG] at hwf
    rw [GenericsVisitor.visit_expr]
    exact wf_visit_stmt_list ss d found hwf
  | tryE e2 =>
    intro d found hwf
    rw [exprWfG] at hwf
    rw [GenericsVisitor.visit_expr]
    exact wf_visit_expr e2 d found hwf

theorem wf_visit_expr_list (es : List Expr) :
    ∀ (d found : List GenericParam), exprListWfG es = true →
      ∃ out, GenericsVisitor.visit_expr_list d found es = .ok out := by
  cases es with
  | nil => intro d found _; exact ⟨found, rfl⟩
  | cons e es =>
    intro d found hwf
    rw [exprListWfG, Bool.and_eq_true] at hwf
    rw [GenericsVisitor.visit_expr_list]
    obtain ⟨o1, h1⟩ := wf_visit_expr e d found hwf.1
    rw [h1]
    exact wf_visit_expr_list es d o1 hwf.2

theorem wf_visit_stmt_list (ss : List Stmt) :
    ∀ (d found : List GenericParam), stmtListWfG ss = true →
      ∃ out, GenericsVisitor.visit_stmt_list d found ss = .ok out := by
  cases ss with
  | nil => intro d found _; exact ⟨found, rfl⟩
  | cons s ss =>
    cases s with
    | exprStmt e =>
      intro d found hwf
      rw [stmtListWfG, Bool.and_eq_true] at hwf
      rw [GenericsVisitor.visit_stmt_list]
      obtain ⟨o1, h1⟩ := wf_visit_expr e d found hwf.1
      rw [h1]
      exact wf_visit_stmt_list ss d o1 hwf.2
    | localStmt oi =>
      cases oi with
      | none =>
        intro d found hwf
        rw [stmtListWfG] at hwf
        rw [GenericsVisitor.visit_stmt_list]
        exact wf_visit_stmt_list ss d found hwf
      | some e =>
        intro d found hwf
        rw [stmtListWfG, Bool.and_eq_true] at hwf
        rw [GenericsVisitor.visit_stmt_list]
        obtain ⟨o1, h1⟩ := wf_visit_expr e d found hwf.1
        rw [h1]
        exact wf_visit_stmt_list ss d o1 hwf.2
    | itemFn n body =>
      intro d found hwf
      rw [stmtListWfG, Bool.and_eq_true] at hwf
      rw [GenericsVisitor.visit_stmt_list]
      obtain ⟨o1, h1⟩ := wf_visit_stmt_list body d found hwf.1
      rw [h1]
      exact wf_visit_stmt_list ss d o1 hwf.2

end

theorem ebind_ok_inv {α β : Type} {x : Except String α} {k : α → Except String β} {r : β}
    (h : (do let a ← x; k a) = .ok r) : ∃ a, x = .ok a ∧ k a = .ok r := by
  cases x with
  | error e => exact Except.noConfusion h
  | ok a => exact ⟨a, rfl, h⟩

theorem epure_ok_inv {α : Type} {z r : α}
    (h : (pure z : Except String α) = .ok r) : z = r := by
  injection h

def isCastExpr : Expr → Bool
  | .cast _ _ => true
  | _ => false

def castValOf : Expr → Expr
  | .cast e _ => e
  | e => e

def castTyOf : Expr → Ty
  | .cast _ t => t
  | _ => Ty.tuple []

theorem collectCastArgs_all_cast (rest : List Expr)
    (h : ∀ a ∈ rest, isCastExpr a = true) :
    collectCastArgs rest = .ok (rest.map castValOf, rest.map castTyOf) := by
  induction rest with
  | nil => rfl
  | cons a rest ih =>
    cases a with
    | cast e t =>
      rw [collectCastArgs, ih (fun x hx => h x (List.mem_cons_of_mem _ hx))]
      rfl
    | call attrs f args => exact absurd (h _ (List.mem_cons_self _ _)) (by simp [isCastExpr])
    | path lc segs => exact absurd (h _ (List.mem_cons_self _ _)) (by simp [isCastExpr])
    | lit s => exact absurd (h _ (List.mem_cons_self _ _)) (by simp [isCastExpr])
    | methodCall r args => exact absurd (h _ (List.mem_cons_self _ _)) (by simp [isCastExpr])
    | closure b => exact absurd (h _ (List.mem_cons_self _ _)) (by simp [isCastExpr])
    | block ss => exact absurd (h _ (List.mem_cons_self _ _)) (by simp [isCastExpr])
    | tryE e => exact absurd (h _ (List.mem_cons_self _ _)) (by simp [isCastExpr])

theorem collectCastArgs_err (rest : List Expr)
    (h : ∃ a ∈ rest, isCastExpr a = false) :
    ∃ msg, collectCastArgs rest = .error msg := by
  induction rest with
  | nil => simp at h
  | cons a rest ih =>
    cases a with
    | cast e t =>
      obtain ⟨x, hx, hcast⟩ := h
      rcases List.mem_cons.mp hx with rfl | hx2
      · simp [isCastExpr] at hcast
      · obtain ⟨msg, hmsg⟩ := ih ⟨x, hx2, hcast⟩
        rw [collectCastArgs, hmsg]
        exact ⟨msg, rfl⟩
    | call attrs f args => exact ⟨"expect a cast expression", rfl⟩
    | path lc segs => exact ⟨"expect a cast expression", rfl⟩
    | lit s => exact ⟨"expect a cast expression", rfl⟩
    | methodCall r args => exact ⟨"expect a cast expression", rfl⟩
    | closure b => exact ⟨"expect a cast expression", rfl⟩
    | block ss => exact ⟨"expect a cast expression", rfl⟩
    | tryE e => exact ⟨"expect a cast expression", rfl⟩

theorem visit_marked_call (st : ItemEnum) (attrs : List (List String)) (c : String)
    (fmt : Expr) (rest : List Expr) (vals : List Expr) (tys : List Ty)
    (hm : (attrs.any fun a => isFnerrAttr a) = true)
    (hc : collectCastArgs rest = .ok (vals, tys)) :
    ErrorVistor.visit_expr_mut st (Expr.call attrs (Expr.path false [c]) (fmt :: rest)) =
      .ok ({ st with variants := st.variants ++ [⟨c, fmt, tys, List.range tys.length⟩] },
        Expr.call (attrs.filter fun a => !(isFnerrAttr a)) (Expr.path false [st.ident, c]) vals) := by
  rw [ErrorVistor.visit_expr_mut, hm]
  show (do
    let (new_args, fields) ← collectCastArgs rest
    pure ({ st with variants := st.variants ++ [⟨c, fmt, fields, List.range fields.length⟩] },
      Expr.call (attrs.filter fun a => !(isFnerrAttr a)) (Expr.path false [st.ident, c]) new_args) :
      Except String (ItemEnum × Expr)) = _
  rw [hc]
  rfl

theorem visit_marked_call_inv (st : ItemEnum) (attrs : List (List String)) (f : Expr)
    (args : List Expr) (st2 : ItemEnum) (e2 : Expr)
    (hm : (attrs.any fun a => isFnerrAttr a) = true)
    (h : ErrorVistor.visit_expr_mut st (Expr.call attrs f args) = .ok (st2, e2)) :
    ∃ c fmt rest vals tys, f = Expr.path false [c] ∧ args = fmt :: rest ∧
      collectCastArgs rest = .ok (vals, tys) ∧
      st2 = { st with variants := st.variants ++ [⟨c, fmt, tys, List.range tys.length⟩] } ∧
      e2 = Expr.call (attrs.filter fun a => !(isFnerrAttr a))
        (Expr.path false [st.ident, c]) vals := by
  cases f with
  | path lc segs =>
    cases lc with
    | true =>
      simp only [ErrorVistor.visit_expr_mut, hm] at h
      exact Except.noConfusion h
    | false =>
      cases segs with
      | nil =>
        simp only [ErrorVistor.visit_expr_mut, hm] at h
        exact Except.noConfusion h
      | cons x xs =>
        cases xs with
        | cons y r =>
          simp only [ErrorVistor.visit_expr_mut, hm] at h
          exact Except.noConfusion h
        | nil =>
          cases args with
          | nil =>
            simp only [ErrorVistor.visit_expr_mut, hm] at h
            exact Except.noConfusion h
          | cons fmt rest =>
            simp only [ErrorVistor.visit_expr_mut, hm] at h
            obtain ⟨⟨vals, tys⟩, hc, hrest⟩ := ebind_ok_inv h
            have hp := epure_ok_inv hrest
            injection hp with hst he
            exact ⟨x, fmt, rest, vals, tys, rfl, rfl, hc, hst.symm, he.symm⟩
  | call a2 f2 args2 =>
    simp only [ErrorVistor.visit_expr_mut, hm] at h
    exact Except.noConfusion h
  | cast e3 t =>
    simp only [ErrorVistor.visit_expr_mut, hm] at h
    exact Except.noConfusion h
  | lit s =>
    simp only [ErrorVistor.visit_expr_mut, hm] at h
    exact Except.noConfusion h
  | methodCall r a2 =>
    simp only [ErrorVistor.visit_expr_mut, hm] at h
    exact Except.noConfusion h
  | closure b =>
    simp only [ErrorVistor.visit_expr_mut, hm] at h
    exact Except.noConfusion h
  | block ss =>
    simp only [ErrorVistor.visit_expr_mut, hm] at h
    exact Except.noConfusion h
  | tryE e3 =>
    simp only [ErrorVistor.visit_expr_mut, hm] at h
    exact Except.noConfusion h

theorem visit_unmarked_call (st : ItemEnum) (attrs : List (List String)) (f : Expr)
    (args : List Expr) (hm : (attrs.any fun a => isFnerrAttr a) = false) :
    ErrorVistor.visit_expr_mut st (Expr.call attrs f args) =
      (do
        let (st1, f1) ← ErrorVistor.visit_expr_mut st f
        let (st2, args1) ← ErrorVistor.visit_expr_list_mut st1 args
        pure (st2, Expr.call (attrs.filter fun a => !(isFnerrAttr a)) f1 args1)) := by
  rw [ErrorVistor.visit_expr_mut.eq_def]
  dsimp only
  rw [hm]
  rfl

mutual

theorem tags_visit_expr (e : Expr) :
    ∀ st st2 e2, ErrorVistor.visit_expr_mut st e = .ok (st2, e2) →
      st2.variants.map (fun v => v.tag) = st.variants.map (fun v => v.tag) ++ exprTags e := by
  cases e with
  | call attrs f args =>
    intro st st2 e2 h
    by_cases hm : (attrs.any fun a => isFnerrAttr a) = true
    · obtain ⟨c, fmt, rest, vals, tys, hf, ha, hc, hst, he⟩ :=
        visit_marked_call_inv st attrs f args st2 e2 hm h
      subst hf; subst ha; subst hst
      simp [exprTags, hm]
    · rw [Bool.not_eq_true] at hm
      rw [visit_unmarked_call st attrs f args hm] at h
      obtain ⟨⟨st1, f1⟩, h1, h⟩ := ebind_ok_inv h
      obtain ⟨⟨st2x, args1⟩, h2, h⟩ := ebind_ok_inv h
      have hp := epure_ok_inv h
      injection hp with hpa hpb
      have t1 := tags_visit_expr f st st1 f1 h1
      have t2 := tags_visit_expr_list args st1 st2x args1 h2
      rw [hpa] at t2
      rw [t2, t1]
      simp [exprTags, hm, List.append_assoc]
  | path lc segs =>
    intro st st2 e2 h
    simp only [ErrorVistor.visit_expr_mut] at h
    have hp := epure_ok_inv h
    injection hp with hpa hpb
    subst hpa
    simp [exprTags]
  | cast e1 t =>
    intro st st2 e2 h
    simp only [ErrorVistor.visit_expr_mut] at h
    obtain ⟨⟨st1, e1x⟩, h1, h⟩ := ebind_ok_inv h
    obtain ⟨⟨st2x, t1x⟩, h2, h⟩ := ebind_ok_inv h
    have hp := epure_ok_inv h
    injection hp with hpa hpb
    have u1 := tags_visit_expr e1 st st1 e1x h1
    have u2 := tags_visit_type t st1 st2x t1x h2
    subst hpa
    simp [u1, u2, exprTags, List.append_assoc]
  | lit s =>
    intro st st2 e2 h
    simp only [ErrorVistor.visit_expr_mut] at h
    have hp := epure_ok_inv h
    injection hp with hpa hpb
    subst hpa
    simp [exprTags]
  | methodCall r args =>
    intro st st2 e2 h
    simp only [ErrorVistor.visit_expr_mut] at h
    obtain ⟨⟨st1, r1⟩, h1, h⟩ := ebind_ok_inv h
    obtain ⟨⟨st2x, args1⟩, h2, h⟩ := ebind_ok_inv h
    have hp := epure_ok_inv h
    injection hp with hpa hpb
    have u1 := tags_visit_expr r st st1 r1 h1
    have u2 := tags_visit_expr_list args st1 st2x args1 h2
    subst hpa
    simp [u1, u2, exprTags, List.append_assoc]
  | closure b =>
    intro st st2 e2 h
    simp only [ErrorVistor.visit_expr_mut] at h
    obtain ⟨⟨st1, b1⟩, h1, h⟩ := ebind_ok_inv h
    have hp := epure_ok_inv h
    injection hp with hpa hpb
    have u1 := tags_visit_expr b st st1 b1 h1
    subst hpa
    simp [u1, exprTags]
  | block ss =>
    intro st st2 e2 h
    simp only [ErrorVistor.visit_expr_mut] at h
    obtain ⟨⟨st1, ss1⟩, h1, h⟩ := ebind_ok_inv h
    have hp := epure_ok_inv h
    injection hp with hpa hpb
    have u1 := tags_visit_stmt_list ss st st1 ss1 h1
    subst hpa
    simp [u1, exprTags]
  | tryE e1 =>
    intro st st2 e2 h
    simp only [ErrorVistor.visit_expr_mut] at h
    obtain ⟨⟨st1, e1x⟩, h1, h⟩ := ebind_ok_inv h
    have hp := epure_ok_inv h
    injection hp with hpa hpb
    have u1 := tags_visit_expr e1 st st1 e1x h1
    subst hpa
    simp [u1, exprTags]

theorem tags_visit_expr_list (es : List Expr) :
    ∀ st st2 es2, ErrorVistor.visit_expr_list_mut st es = .ok (st2, es2) →
      st2.variants.map (fun v => v.tag) =
        st.variants.map (fun v => v.tag) ++ exprListTags es := by
  cases es with
  | nil =>
    intro st st2 es2 h
    have hp := epure_ok_inv h
    injection hp with hpa hpb
    subst hpa
    simp [exprListTags]
  | cons e es =>
    intro st st2 es2 h
    simp only [ErrorVistor.visit_expr_list_mut] at h
    obtain ⟨⟨st1, e1⟩, h1, h⟩ := ebind_ok_inv h
    obtain ⟨⟨st2x, es1⟩, h2, h⟩ := ebind_ok_inv h
    have hp := epure_ok_inv h
    injection hp with hpa hpb
    have u1 := tags_visit_expr e st st1 e1 h1
    have u2 := tags_visit_expr_list es st1 st2x es1 h2
    subst hpa
    simp [u1, u2, exprListTags, List.append_assoc]

theorem tags_visit_stmt_list (ss : List Stmt) :
    ∀ st st2 ss2, ErrorVistor.visit_stmt_list_mut st ss = .ok (st2, ss2) →
      st2.variants.map (fun v => v.tag) =
        st.variants.map (fun v => v.tag) ++ stmtListTags ss := by
  cases ss with
  | nil =>
    intro st st2 ss2 h
    have hp := epure_ok_inv h
    injection hp with hpa hpb
    subst hpa
    simp [stmtListTags]
  | cons s ss =>
    cases s with
    | exprStmt e =>
      intro st st2 ss2 h
      simp only [ErrorVistor.visit_stmt_list_mut] at h
      obtain ⟨⟨st1, e1⟩, h1, h⟩ := ebind_ok_inv h
      obtain ⟨⟨st2x, ss1⟩, h2, h⟩ := ebind_ok_inv h
      have hp := epure_ok_inv h
      injection hp with hpa hpb
      have u1 := tags_visit_expr e st st1 e1 h1
      have u2 := tags_visit_stmt_list ss st1 st2x ss1 h2
      subst hpa
      simp [u1, u2, stmtListTags, List.append_assoc]
    | localStmt oi =>
      cases oi with
      | none =>
        intro st st2 ss2 h
        simp only [ErrorVistor.visit_stmt_list_mut] at h
        obtain ⟨⟨st1, ss1⟩, h1, h⟩ := ebind_ok_inv h
        have hp := epure_ok_inv h
        injection hp with hpa hpb
        have u1 := tags_visit_stmt_list ss st st1 ss1 h1
        subst hpa
        simp [u1, stmtListTags]
      | some e =>
        intro st st2 ss2 h
        simp only [ErrorVistor.visit_stmt_list_mut] at h
        obtain ⟨⟨st1, e1⟩, h1, h⟩ := ebind_ok_inv h
        obtain ⟨⟨st2x, ss1⟩, h2, h⟩ := ebind_ok_inv h
        have hp := epure_ok_inv h
        injection hp with hpa hpb
        have u1 := tags_visit_expr e st st1 e1 h1
        have u2 := tags_visit_stmt_list ss st1 st2x ss1 h2
        subst hpa
        simp [u1, u2, stmtListTags, List.append_assoc]
    | itemFn n body =>
      intro st st2 ss2 h
      simp only [ErrorVistor.visit_stmt_list_mut] at h
      obtain ⟨⟨st1, body1⟩, h1, h⟩ := ebind_ok_inv h
      obtain ⟨⟨st2x, ss1⟩, h2, h⟩ := ebind_ok_inv h
      have hp := epure_ok_inv h
      injection hp with hpa hpb
      have u1 := tags_visit_stmt_list body st st1 body1 h1
      have u2 := tags_visit_stmt_list ss st1 st2x ss1 h2
      subst hpa
      simp [u1, u2, stmtListTags, List.append_assoc]

theorem tags_visit_type (t : Ty) :
    ∀ st st2 t2, ErrorVistor.visit_type_mut st t = .ok (st2, t2) →
      st2.variants.map (fun v => v.tag) = st.variants.map (fun v => v.tag) ++ tyTags t := by
  cases t with
  | ref lt elem =>
    intro st st2 t2 h
    simp only [ErrorVistor.visit_type_mut] at h
    obtain ⟨⟨st1, elem1⟩, h1, h⟩ := ebind_ok_inv h
    have hp := epure_ok_inv h
    injection hp with hpa hpb
    have u1 := tags_visit_type elem st st1 elem1 h1
    subst hpa
    simp [u1, tyTags]
  | path lc segs =>
    intro st st2 t2 h
    simp only [ErrorVistor.visit_type_mut] at h
    obtain ⟨⟨st1, segs1⟩, h1, h⟩ := ebind_ok_inv h
    have hp := epure_ok_inv h
    injection hp with hpa hpb
    have u1 := tags_visit_seg_list segs st st1 segs1 h1
    subst hpa
    simp [u1, tyTags]
  | tuple elems =>
    intro st st2 t2 h
    simp only [ErrorVistor.visit_type_mut] at h
    obtain ⟨⟨st1, elems1⟩, h1, h⟩ := ebind_ok_inv h
    have hp := epure_ok_inv h
    injection hp with hpa hpb
    have u1 := tags_visit_type_list elems st st1 elems1 h1
    subst hpa
    simp [u1, tyTags]

theorem tags_visit_type_list (ts : List Ty) :
    ∀ st st2 ts2, ErrorVistor.visit_type_list_mut st ts = .ok (st2, ts2) →
      st2.variants.map (fun v => v.tag) =
        st.variants.map (fun v => v.tag) ++ tyListTags ts := by
  cases ts with
  | nil =>
    intro st st2 ts2 h
    have hp := epure_ok_inv h
    injection hp with hpa hpb
    subst hpa
    simp [tyListTags]
  | cons t ts =>
    intro st st2 ts2 h
    simp only [ErrorVistor.visit_type_list_mut] at h
    obtain ⟨⟨st1, t1⟩, h1, h⟩ := ebind_ok_inv h
    obtain ⟨⟨st2x, ts1⟩, h2, h⟩ := ebind_ok_inv h
    have hp := epure_ok_inv h
    injection hp with hpa hpb
    have u1 := tags_visit_type t st st1 t1 h1
    have u2 := tags_visit_type_list ts st1 st2x ts1 h2
    subst hpa
    simp [u1, u2, tyListTags, List.append_assoc]

theorem tags_visit_seg_list (ss : List TySeg) :
    ∀ st st2 ss2, ErrorVistor.visit_seg_list_mut st ss = .ok (st2, ss2) →
      st2.variants.map (fun v => v.tag) =
        st.variants.map (fun v => v.tag) ++ segListTags ss := by
  cases ss with
  | nil =>
    intro st st2 ss2 h
    have hp := epure_ok_inv h
    injection hp with hpa hpb
    subst hpa
    simp [segListTags]
  | cons s ss =>
    cases s with
    | mk i pa =>
      cases pa with
      | none =>
        intro st st2 ss2 h
        simp only [ErrorVistor.visit_seg_list_mut] at h
        obtain ⟨⟨st1, ss1⟩, h1, h⟩ := ebind_ok_inv h
        have hp := epure_ok_inv h
        injection hp with hpa hpb
        have u1 := tags_visit_seg_list ss st st1 ss1 h1
        subst hpa
        simp [u1, segListTags]
      | angle args =>
        intro st st2 ss2 h
        simp only [ErrorVistor.visit_seg_list_mut] at h
        obtain ⟨⟨st1, args1⟩, h1, h⟩ := ebind_ok_inv h
        obtain ⟨⟨st2x, ss1⟩, h2, h⟩ := ebind_ok_inv h
        have hp := epure_ok_inv h
        injection hp with hpa hpb
        have u1 := tags_visit_arg_list args st st1 args1 h1
        have u2 := tags_visit_seg_list ss st1 st2x ss1 h2
        subst hpa
        simp [u1, u2, segListTags, List.append_assoc]

theorem tags_visit_arg_list (as_ : List GenericArg) :
    ∀ st st2 as2, ErrorVistor.visit_arg_list_mut st as_ = .ok (st2, as2) →
      st2.variants.map (fun v => v.tag) =
        st.variants.map (fun v => v.tag) ++ argListTags as_ := by
  cases as_ with
  | nil =>
    intro st st2 as2 h
    have hp := epure_ok_inv h
    injection hp with hpa hpb
    subst hpa
    simp [argListTags]
  | cons a as_ =>
    cases a with
    | lifetime l =>
      intro st st2 as2 h
      simp only [ErrorVistor.visit_arg_list_mut] at h
      obtain ⟨⟨st1, as1⟩, h1, h⟩ := ebind_ok_inv h
      have hp := epure_ok_inv h
      injection hp with hpa hpb
      have u1 := tags_visit_arg_list as_ st st1 as1 h1
      subst hpa
      simp [u1, argListTags]
    | tyArg t =>
      intro st st2 as2 h
      simp only [ErrorVistor.visit_arg_list_mut] at h
      obtain ⟨⟨st1, t1⟩, h1, h⟩ := ebind_ok_inv h
      obtain ⟨⟨st2x, as1⟩, h2, h⟩ := ebind_ok_inv h
      have hp := epure_ok_inv h
      injection hp with hpa hpb
      have u1 := tags_visit_type t st st1 t1 h1
      have u2 := tags_visit_arg_list as_ st1 st2x as1 h2
      subst hpa
      simp [u1, u2, argListTags, List.append_assoc]
    | constArg e =>
      intro st st2 as2 h
      simp only [ErrorVistor.visit_arg_list_mut] at h
      obtain ⟨⟨st1, e1⟩, h1, h⟩ := ebind_ok_inv h
      obtain ⟨⟨st2x, as1⟩, h2, h⟩ := ebind_ok_inv h
      have hp := epure_ok_inv h
      injection hp with hpa hpb
      have u1 := tags_visit_expr e st st1 e1 h1
      have u2 := tags_visit_arg_list as_ st1 st2x as1 h2
      subst hpa
      simp [u1, u2, argListTags, List.append_assoc]

end

theorem filter_no_fnerr (attrs : List (List String)) :
    ((attrs.filter fun a => !(isFnerrAttr a)).any fun a => isFnerrAttr a) = false := by
  induction attrs with
  | nil => rfl
  | cons a attrs ih =>
    by_cases ha : isFnerrAttr a = true
    · simp [List.filter_cons, ha, ih]
    · rw [Bool.not_eq_true] at ha
      simp [List.filter_cons, ha, ih]

theorem collectCastArgs_vals_clean (rest : List Expr) :
    ∀ vals tys, collectCastArgs rest = .ok (vals, tys) →
      (rest.all fun a => match a with
        | Expr.cast v _ => !(exprHasFnerr v)
        | _ => true) = true →
      exprListHasFnerr vals = false := by
  induction rest with
  | nil =>
    intro vals tys hc hall
    have hp := epure_ok_inv hc
    injection hp with hva hty
    rw [← hva]
    rfl
  | cons a rest ih =>
    intro vals tys hc hall
    cases a with
    | cast v t =>
      rw [collectCastArgs] at hc
      obtain ⟨⟨es, ts⟩, h1, h2⟩ := ebind_ok_inv hc
      have hp := epure_ok_inv h2
      injection hp with hva hty
      rw [List.all_cons] at hall
      rw [Bool.and_eq_true] at hall
      rw [← hva]
      rw [exprListHasFnerr]
      have hv : exprHasFnerr v = false := by
        have := hall.1
        simp only [Bool.not_eq_true'] at this
        exact this
      rw [hv, ih es ts h1 hall.2]
      rfl
    | call a2 f2 args2 => exact Except.noConfusion hc
    | path lc segs => exact Except.noConfusion hc
    | lit s => exact Except.noConfusion hc
    | methodCall r a2 => exact Except.noConfusion hc
    | closure b => exact Except.noConfusion hc
    | block ss => exact Except.noConfusion hc
    | tryE e3 => exact Except.noConfusion hc

mutual

theorem clean_visit_expr (e : Expr) :
    ∀ st st2 e2, exprMarkedClean e = true →
      ErrorVistor.visit_expr_mut st e = .ok (st2, e2) → exprHasFnerr e2 = false := by
  cases e with
  | call attrs f args =>
    intro st st2 e2 hcl h
    by_cases hm : (attrs.any fun a => isFnerrAttr a) = true
    · obtain ⟨c, fmt, rest, vals, tys, hf, ha, hc, hst, he⟩ :=
        visit_marked_call_inv st attrs f args st2 e2 hm h
      subst ha
      subst he
      simp only [exprMarkedClean, hm, if_true] at hcl
      have hvals := collectCastArgs_vals_clean rest vals tys hc hcl
      simp [exprHasFnerr, filter_no_fnerr, hvals]
    · rw [Bool.not_eq_true] at hm
      rw [visit_unmarked_call st attrs f args hm] at h
      obtain ⟨⟨st1, f1⟩, h1, h⟩ := ebind_ok_inv h
      obtain ⟨⟨st2x, args1⟩, h2, h⟩ := ebind_ok_inv h
      have hp := epure_ok_inv h
      injection hp with hpa hpb
      subst hpb
      simp only [exprMarkedClean, hm, Bool.false_eq_true, if_false, Bool.and_eq_true] at hcl
      have u1 := clean_visit_expr f st st1 f1 hcl.1 h1
      have u2 := clean_visit_expr_list args st1 st2x args1 hcl.2 h2
      simp [exprHasFnerr, filter_no_fnerr, u1, u2]
  | path lc segs =>
    intro st st2 e2 hcl h
    simp only [ErrorVistor.visit_expr_mut] at h
    have hp := epure_ok_inv h
    injection hp with hpa hpb
    subst hpb
    rfl
  | cast e1 t =>
    intro st st2 e2 hcl h
    simp only [ErrorVistor.visit_expr_mut] at h
    obtain ⟨⟨st1, e1x⟩, h1, h⟩ := ebind_ok_inv h
    obtain ⟨⟨st2x, t1x⟩, h2, h⟩ := ebind_ok_inv h
    have hp := epure_ok_inv h
    injection hp with hpa hpb
    subst hpb
    simp only [exprMarkedClean, Bool.and_eq_true] at hcl
    have u1 := clean_visit_expr e1 st st1 e1x hcl.1 h1
    have u2 := clean_visit_type t st1 st2x t1x hcl.2 h2
    simp [exprHasFnerr, u1, u2]
  | lit s =>
    intro st st2 e2 hcl h
    simp only [ErrorVistor.visit_expr_mut] at h
    have hp := epure_ok_inv h
    injection hp with hpa hpb
    subst hpb
    rfl
  | methodCall r args =>
    intro st st2 e2 hcl h
    simp only [ErrorVistor.visit_expr_mut] at h
    obtain ⟨⟨st1, r1⟩, h1, h⟩ := ebind_ok_inv h
    obtain ⟨⟨st2x, args1⟩, h2, h⟩ := ebind_ok_inv h
    have hp := epure_ok_inv h
    injection hp with hpa hpb
    subst hpb
    simp only [exprMarkedClean, Bool.and_eq_true] at hcl
    have u1 := clean_visit_expr r st st1 r1 hcl.1 h1
    have u2 := clean_visit_expr_list args st1 st2x args1 hcl.2 h2
    simp [exprHasFnerr, u1, u2]
  | closure b =>
    intro st st2 e2 hcl h
    simp only [ErrorVistor.visit_expr_mut] at h
    obtain ⟨⟨st1, b1⟩, h1, h⟩ := ebind_ok_inv h
    have hp := epure_ok_inv h
    injection hp with hpa hpb
    subst hpb
    simp only [exprMarkedClean] at hcl
    have u1 := clean_visit_expr b st st1 b1 hcl h1
    simp [exprHasFnerr, u1]
  | block ss =>
    intro st st2 e2 hcl h
    simp only [ErrorVistor.visit_expr_mut] at h
    obtain ⟨⟨st1, ss1⟩, h1, h⟩ := ebind_ok_inv h
    have hp := epure_ok_inv h
    injection hp with hpa hpb
    subst hpb
    simp only [exprMarkedClean] at hcl
    have u1 := clean_visit_stmt_list ss st st1 ss1 hcl h1
    simp [exprHasFnerr, u1]
  | tryE e1 =>
    intro st st2 e2 hcl h
    simp only [ErrorVistor.visit_expr_mut] at h
    obtain ⟨⟨st1, e1x⟩, h1, h⟩ := ebind_ok_inv h
    have hp := epure_ok_inv h
    injection hp with hpa hpb
    subst hpb
    simp only [exprMarkedClean] at hcl
    have u1 := clean_visit_expr e1 st st1 e1x hcl h1
    simp [exprHasFnerr, u1]

theorem clean_visit_expr_list (es : List Expr) :
    ∀ st st2 es2, exprListMarkedClean es = true →
      ErrorVistor.visit_expr_list_mut st es = .ok (st2, es2) →
      exprListHasFnerr es2 = false := by
  cases es with
  | nil =>
    intro st st2 es2 hcl h
    have hp := epure_ok_inv h
    injection hp with hpa hpb
    subst hpb
    rfl
  | cons e es =>
    intro st st2 es2 hcl h
    simp only [ErrorVistor.visit_expr_list_mut] at h
    obtain ⟨⟨st1, e1⟩, h1, h⟩ := ebind_ok_inv h
    obtain ⟨⟨st2x, es1⟩, h2, h⟩ := ebind_ok_inv h
    have hp := epure_ok_inv h
    injection hp with hpa hpb
    subst hpb
    simp only [exprListMarkedClean, Bool.and_eq_true] at hcl
    have u1 := clean_visit_expr e st st1 e1 hcl.1 h1
    have u2 := clean_visit_expr_list es st1 st2x es1 hcl.2 h2
    simp [exprListHasFnerr, u1, u2]

theorem clean_visit_stmt_list (ss : List Stmt) :
    ∀ st st2 ss2, stmtListMarkedClean ss = true →
      ErrorVistor.visit_stmt_list_mut st ss = .ok (st2, ss2) →
      stmtListHasFnerr ss2 = false := by
  cases ss with
  | nil =>
    intro st st2 ss2 hcl h
    have hp := epure_ok_inv h
    injection hp with hpa hpb
    subst hpb
    rfl
  | cons s ss =>
    cases s with
    | exprStmt e =>
      intro st st2 ss2 hcl h
      simp only [ErrorVistor.visit_stmt_list_mut] at h
      obtain ⟨⟨st1, e1⟩, h1, h⟩ := ebind_ok_inv h
      obtain ⟨⟨st2x, ss1⟩, h2, h⟩ := ebind_ok_inv h
      have hp := epure_ok_inv h
      injection hp with hpa hpb
      subst hpb
      simp only [stmtListMarkedClean, Bool.and_eq_true] at hcl
      have u1 := clean_visit_expr e st st1 e1 hcl.1 h1
      have u2 := clean_visit_stmt_list ss st1 st2x ss1 hcl.2 h2
      simp [stmtListHasFnerr, u1, u2]
    | localStmt oi =>
      cases oi with
      | none =>
        intro st st2 ss2 hcl h
        simp only [ErrorVistor.visit_stmt_list_mut] at h
        obtain ⟨⟨st1, ss1⟩, h1, h⟩ := ebind_ok_inv h
        have hp := epure_ok_inv h
        injection hp with hpa hpb
        subst hpb
        simp only [stmtListMarkedClean] at hcl
        have u1 := clean_visit_stmt_list ss st st1 ss1 hcl h1
        simp [stmtListHasFnerr, u1]
      | some e =>
        intro st st2 ss2 hcl h
        simp only [ErrorVistor.visit_stmt_list_mut] at h
        obtain ⟨⟨st1, e1⟩, h1, h⟩ := ebind_ok_inv h
        obtain ⟨⟨st2x, ss1⟩, h2, h⟩ := ebind_ok_inv h
        have hp := epure_ok_inv h
        injection hp with hpa hpb
        subst hpb
        simp only [stmtListMarkedClean, Bool.and_eq_true] at hcl
        have u1 := clean_visit_expr e st st1 e1 hcl.1 h1
        have u2 := clean_visit_stmt_list ss st1 st2x ss1 hcl.2 h2
        simp [stmtListHasFnerr, u1, u2]
    | itemFn n body =>
      intro st st2 ss2 hcl h
      simp only [ErrorVistor.visit_stmt_list_mut] at h
      obtain ⟨⟨st1, body1⟩, h1, h⟩ := ebind_ok_inv h
      obtain ⟨⟨st2x, ss1⟩, h2, h⟩ := ebind_ok_inv h
      have hp := epure_ok_inv h
      injection hp with hpa hpb
      subst hpb
      simp only [stmtListMarkedClean, Bool.and_eq_true] at hcl
      have u1 := clean_visit_stmt_list body st st1 body1 hcl.1 h1
      have u2 := clean_visit_stmt_list ss st1 st2x ss1 hcl.2 h2
      simp [stmtListHasFnerr, u1, u2]

theorem clean_visit_type (t : Ty) :
    ∀ st st2 t2, tyMarkedClean t = true →
      ErrorVistor.visit_type_mut st t = .ok (st2, t2) → tyHasFnerr t2 = false := by
  cases t with
  | ref lt elem =>
    intro st st2 t2 hcl h
    simp only [ErrorVistor.visit_type_mut] at h
    obtain ⟨⟨st1, elem1⟩, h1, h⟩ := ebind_ok_inv h
    have hp := epure_ok_inv h
    injection hp with hpa hpb
    subst hpb
    simp only [tyMarkedClean] at hcl
    have u1 := clean_visit_type elem st st1 elem1 hcl h1
    simp [tyHasFnerr, u1]
  | path lc segs =>
    intro st st2 t2 hcl h
    simp only [ErrorVistor.visit_type_mut] at h
    obtain ⟨⟨st1, segs1⟩, h1, h⟩ := ebind_ok_inv h
    have hp := epure_ok_inv h
    injection hp with hpa hpb
    subst hpb
    simp only [tyMarkedClean] at hcl
    have u1 := clean_visit_seg_list segs st st1 segs1 hcl h1
    simp [tyHasFnerr, u1]
  | tuple elems =>
    intro st st2 t2 hcl h
    simp only [ErrorVistor.visit_type_mut] at h
    obtain ⟨⟨st1, elems1⟩, h1, h⟩ := ebind_ok_inv h
    have hp := epure_ok_inv h
    injection hp with hpa hpb
    subst hpb
    simp only [tyMarkedClean] at hcl
    have u1 := clean_visit_type_list elems st st1 elems1 hcl h1
    simp [tyHasFnerr, u1]

theorem clean_visit_type_list (ts : List Ty) :
    ∀ st st2 ts2, tyListMarkedClean ts = true →
      ErrorVistor.visit_type_list_mut st ts = .ok (st2, ts2) →
      tyListHasFnerr ts2 = false := by
  cases ts with
  | nil =>
    intro st st2 ts2 hcl h
    have hp := epure_ok_inv h
    injection hp with hpa hpb
    subst hpb
    rfl
  | cons t ts =>
    intro st st2 ts2 hcl h
    simp only [ErrorVistor.visit_type_list_mut] at h
    obtain ⟨⟨st1, t1⟩, h1, h⟩ := ebind_ok_inv h
    obtain ⟨⟨st2x, ts1⟩, h2, h⟩ := ebind_ok_inv h
    have hp := epure_ok_inv h
    injection hp with hpa hpb
    subst hpb
    simp only [tyListMarkedClean, Bool.and_eq_true] at hcl
    have u1 := clean_visit_type t st st1 t1 hcl.1 h1
    have u2 := clean_visit_type_list ts st1 st2x ts1 hcl.2 h2
    simp [tyListHasFnerr, u1, u2]

theorem clean_visit_seg_list (ss : List TySeg) :
    ∀ st st2 ss2, segListMarkedClean ss = true →
      ErrorVistor.visit_seg_list_mut st ss = .ok (st2, ss2) →
      segListHasFnerr ss2 = false := by
  cases ss with
  | nil =>
    intro st st2 ss2 hcl h
    have hp := epure_ok_inv h
    injection hp with hpa hpb
    subst hpb
    rfl
  | cons s ss =>
    cases s with
    | mk i pa =>
      cases pa with
      | none =>
        intro st st2 ss2 hcl h
        simp only [ErrorVistor.visit_seg_list_mut] at h
        obtain ⟨⟨st1, ss1⟩, h1, h⟩ := ebind_ok_inv h
        have hp := epure_ok_inv h
        injection hp with hpa hpb
        subst hpb
        simp only [segListMarkedClean] at hcl
        have u1 := clean_visit_seg_list ss st st1 ss1 hcl h1
        simp [segListHasFnerr, u1]
      | angle args =>
        intro st st2 ss2 hcl h
        simp only [ErrorVistor.visit_seg_list_mut] at h
        obtain ⟨⟨st1, args1⟩, h1, h⟩ := ebind_ok_inv h
        obtain ⟨⟨st2x, ss1⟩, h2, h⟩ := ebind_ok_inv h
        have hp := epure_ok_inv h
        injection hp with hpa hpb
        subst hpb
        simp only [segListMarkedClean, Bool.and_eq_true] at hcl
        have u1 := clean_visit_arg_list args st st1 args1 hcl.1 h1
        have u2 := clean_visit_seg_list ss st1 st2x ss1 hcl.2 h2
        simp [segListHasFnerr, u1, u2]

theorem clean_visit_arg_list (as_ : List GenericArg) :
    ∀ st st2 as2, argListMarkedClean as_ = true →
      ErrorVistor.visit_arg_list_mut st as_ = .ok (st2, as2) →
      argListHasFnerr as2 = false := by
  cases as_ with
  | nil =>
    intro st st2 as2 hcl h
    have hp := epure_ok_inv h
    injection hp with hpa hpb
    subst hpb
    rfl
  | cons a as_ =>
    cases a with
    | lifetime l =>
      intro st st2 as2 hcl h
      simp only [ErrorVistor.visit_arg_list_mut] at h
      obtain ⟨⟨st1, as1⟩, h1, h⟩ := ebind_ok_inv h
      have hp := epure_ok_inv h
      injection hp with hpa hpb
      subst hpb
      simp only [argListMarkedClean] at hcl
      have u1 := clean_visit_arg_list as_ st st1 as1 hcl h1
      simp [argListHasFnerr, u1]
    | tyArg t =>
      intro st st2 as2 hcl h
      simp only [ErrorVistor.visit_arg_list_mut] at h
      obtain ⟨⟨st1, t1⟩, h1, h⟩ := ebind_ok_inv h
      obtain ⟨⟨st2x, as1⟩, h2, h⟩ := ebind_ok_inv h
      have hp := epure_ok_inv h
      injection hp with hpa hpb
      subst hpb
      simp only [argListMarkedClean, Bool.and_eq_true] at hcl
      have u1 := clean_visit_type t st st1 t1 hcl.1 h1
      have u2 := clean_visit_arg_list as_ st1 st2x as1 hcl.2 h2
      simp [argListHasFnerr, u1, u2]
    | constArg e =>
      intro st st2 as2 hcl h
      simp only [ErrorVistor.visit_arg_list_mut] at h
      obtain ⟨⟨st1, e1⟩, h1, h⟩ := ebind_ok_inv h
      obtain ⟨⟨st2x, as1⟩, h2, h⟩ := ebind_ok_inv h
      have hp := epure_ok_inv h
      injection hp with hpa hpb
      subst hpb
      simp only [argListMarkedClean, Bool.and_eq_true] at hcl
      have u1 := clean_visit_expr e st st1 e1 hcl.1 h1
      have u2 := clean_visit_arg_list as_ st1 st2x as1 hcl.2 h2
      simp [argListHasFnerr, u1, u2]

end

theorem visit_marked_call_err (st : ItemEnum) (attrs : List (List String)) (c : String)
    (fmt : Expr) (rest : List Expr) (msg : String)
    (hm : (attrs.any fun a => isFnerrAttr a) = true)
    (hc : collectCastArgs rest = .error msg) :
    ErrorVistor.visit_expr_mut st (Expr.call attrs (Expr.path false [c]) (fmt :: rest)) =
      .error msg := by
  rw [ErrorVistor.visit_expr_mut, hm]
  show (do
    let (new_args, fields) ← collectCastArgs rest
    pure ({ st with variants := st.variants ++ [⟨c, fmt, fields, List.range fields.length⟩] },
      Expr.call (attrs.filter fun a => !(isFnerrAttr a)) (Expr.path false [st.ident, c]) new_args) :
      Except String (ItemEnum × Expr)) = _
  rw [hc]
  rfl

/-!
Claim theorems.
-/

/-- C1, counterexample: the claim states that the number of synthesized
variants equals the number of marker-annotated calls found outside any
nested item, the body of a nested function being opaque to the walk.
On a body whose only marked call sits inside a nested fn item, the
extractor still synthesizes one variant (the default syn walk descends
into Stmt::Item), while the outside-items count of the claim is zero,
so the claim fails at this input. -/
theorem C1_counterexample :
    runExtractor "FooError"
        [Stmt.itemFn "helper"
          [Stmt.exprStmt (Expr.call [["fnerr"]] (Expr.path false ["E"]) [Expr.lit "t"])]] =
      .ok ({ ident := "FooError", variants := [⟨"E", Expr.lit "t", [], []⟩] },
        [Stmt.itemFn "helper"
          [Stmt.exprStmt (Expr.call [] (Expr.path false ["FooError", "E"]) [])]]) ∧
    stmtListMarkedCount
        [Stmt.itemFn "helper"
          [Stmt.exprStmt (Expr.call [["fnerr"]] (Expr.path false ["E"]) [Expr.lit "t"])]] = 0 ∧
    (1 : Nat) ≠ 0 :=
  ⟨rfl, rfl, by decide⟩

/-- C1, amended: the variant tags of the synthesized enum are exactly
the callee identifiers of the marker-annotated calls in pre-order,
left-to-right discovery order of the walk, which descends into nested
item bodies (they are not opaque) but does not descend into the
subtrees of an already matched marked call.  In particular the number
of variants equals the number of marked calls this walk discovers. -/
theorem C1_amended_variant_tags (error_ident : String) (body : List Stmt)
    (en : ItemEnum) (body2 : List Stmt)
    (h : runExtractor error_ident body = .ok (en, body2)) :
    en.variants.map (fun v => v.tag) = stmtListTags body := by
  have := tags_visit_stmt_list body (ErrorVistor.new error_ident) en body2 h
  simpa [ErrorVistor.new] using this

/-- Witness for C1: the amended correspondence evaluated on the body of
the counterexample input. -/
theorem C1_amended_witness :
    ({ ident := "FooError", variants := [⟨"E", Expr.lit "t", [], []⟩] } :
        ItemEnum).variants.map (fun v => v.tag) =
      stmtListTags
        [Stmt.itemFn "helper"
          [Stmt.exprStmt (Expr.call [["fnerr"]] (Expr.path false ["E"]) [Expr.lit "t"])]] :=
  C1_amended_variant_tags "FooError"
    [Stmt.itemFn "helper"
      [Stmt.exprStmt (Expr.call [["fnerr"]] (Expr.path false ["E"]) [Expr.lit "t"])]]
    { ident := "FooError", variants := [⟨"E", Expr.lit "t", [], []⟩] }
    [Stmt.itemFn "helper"
      [Stmt.exprStmt (Expr.call [] (Expr.path false ["FooError", "E"]) [])]]
    (by rfl)

/-- C2: for a marker-annotated call, every argument after the first
must be a cast expression, and the transformation fails fatally
otherwise; when all are casts, the variant field types equal the
ascribed types in original left-to-right order and the rewritten call
arguments are exactly the value sub-expressions in the same order. -/
theorem C2_cast_arguments (st : ItemEnum) (attrs : List (List String)) (c : String)
    (fmt : Expr) (rest : List Expr)
    (hm : (attrs.any fun a => isFnerrAttr a) = true) :
    ((∀ a ∈ rest, isCastExpr a = true) →
      ErrorVistor.visit_expr_mut st (Expr.call attrs (Expr.path false [c]) (fmt :: rest)) =
        .ok ({ st with variants := st.variants ++
                [⟨c, fmt, rest.map castTyOf, List.range rest.length⟩] },
          Expr.call (attrs.filter fun a => !(isFnerrAttr a))
            (Expr.path false [st.ident, c]) (rest.map castValOf))) ∧
    ((∃ a ∈ rest, isCastExpr a = false) →
      ∃ msg, ErrorVistor.visit_expr_mut st
        (Expr.call attrs (Expr.path false [c]) (fmt :: rest)) = .error msg) := by
  constructor
  · intro hall
    have hc := collectCastArgs_all_cast rest hall
    have hk := visit_marked_call st attrs c fmt rest (rest.map castValOf) (rest.map castTyOf) hm hc
    simpa [List.length_map] using hk
  · intro hex
    obtain ⟨msg, hmsg⟩ := collectCastArgs_err rest hex
    exact ⟨msg, visit_marked_call_err st attrs c fmt rest msg hm hmsg⟩

/-- Witness for C2: both halves at concrete inputs, a call with a
single proper cast argument and a call whose second argument lacks the
ascription. -/
theorem C2_witness :
    ErrorVistor.visit_expr_mut (ErrorVistor.new "FooError")
        (Expr.call [["fnerr"]] (Expr.path false ["E"])
          [Expr.lit "t",
           Expr.cast (Expr.path false ["e"]) (Ty.path false [TySeg.mk "String" PathArgs.none])]) =
      .ok ({ ident := "FooError",
             variants := [⟨"E", Expr.lit "t",
               [Ty.path false [TySeg.mk "String" PathArgs.none]], [0]⟩] },
        Expr.call [] (Expr.path false ["FooError", "E"]) [Expr.path false ["e"]]) ∧
    (∃ msg, ErrorVistor.visit_expr_mut (ErrorVistor.new "FooError")
        (Expr.call [["fnerr"]] (Expr.path false ["E"])
          [Expr.lit "t", Expr.path false ["x"]]) = .error msg) := by
  constructor
  · exact (C2_cast_arguments (ErrorVistor.new "FooError") [["fnerr"]] "E" (Expr.lit "t")
      [Expr.cast (Expr.path false ["e"]) (Ty.path false [TySeg.mk "String" PathArgs.none])]
      (by rfl)).1 (by intro a ha; simp at ha; subst ha; rfl)
  · exact (C2_cast_arguments (ErrorVistor.new "FooError") [["fnerr"]] "E" (Expr.lit "t")
      [Expr.path false ["x"]] (by rfl)).2
      ⟨Expr.path false ["x"], by simp, rfl⟩

/-- C3, counterexample: the claim allows a fatal failure only when the
head identifier is not Result or more than one success-type argument is
present, and otherwise promises a rewrite that places the failure type
in the second slot.  A return type whose head is Result with an EMPTY
angle bracketed list satisfies neither failure condition, yet the code
panics on it; and a bare Result head without any bracket is rewritten
with no failure type added. -/
theorem C3_counterexample :
    parse_return_type "FooError"
        (RetTy.ty (Ty.path false [TySeg.mk "Result" (PathArgs.angle [])])) =
      .error "expect Result of T, fnerror will generate a error for this" ∧
    parse_return_type "FooError"
        (RetTy.ty (Ty.path false [TySeg.mk "Result" PathArgs.none])) =
      .ok (RetTy.ty (Ty.path true [TySeg.mk "std" PathArgs.none,
        TySeg.mk "result" PathArgs.none, TySeg.mk "Result" PathArgs.none])) :=
  ⟨rfl, rfl⟩

/-- C3, amended: for a path return type, the transform fails fatally
when the first segment is not named Result, or when an angle bracketed
argument list is present whose length differs from one; when the head
is Result with exactly one angle bracketed argument the type is
rewritten to the leading-qualified std :: result :: Result with the
failure-type identifier appended as the second argument; a Result head
without brackets is qualified but gains no failure type. -/
theorem C3_amended_return_type (error_ident : String) :
    (∀ (lc : Bool) (id : String) (sargs : PathArgs) (rest : List TySeg), id ≠ "Result" →
      parse_return_type error_ident (RetTy.ty (Ty.path lc (TySeg.mk id sargs :: rest))) =
        .error "expect Result of T") ∧
    (∀ (lc : Bool) (args : List GenericArg) (rest : List TySeg), args.length ≠ 1 →
      parse_return_type error_ident
          (RetTy.ty (Ty.path lc (TySeg.mk "Result" (PathArgs.angle args) :: rest))) =
        .error "expect Result of T, fnerror will generate a error for this") ∧
    (∀ (lc : Bool) (a : GenericArg) (rest : List TySeg),
      parse_return_type error_ident
          (RetTy.ty (Ty.path lc (TySeg.mk "Result" (PathArgs.angle [a]) :: rest))) =
        .ok (RetTy.ty (Ty.path true [TySeg.mk "std" PathArgs.none,
          TySeg.mk "result" PathArgs.none,
          TySeg.mk "Result" (PathArgs.angle
            [a, GenericArg.tyArg (Ty.path false [TySeg.mk error_ident PathArgs.none])])]))) ∧
    (∀ (lc : Bool) (rest : List TySeg),
      parse_return_type error_ident
          (RetTy.ty (Ty.path lc (TySeg.mk "Result" PathArgs.none :: rest))) =
        .ok (RetTy.ty (Ty.path true [TySeg.mk "std" PathArgs.none,
          TySeg.mk "result" PathArgs.none, TySeg.mk "Result" PathArgs.none]))) := by
  refine ⟨?_, ?_, ?_, ?_⟩
  · intro lc id sargs rest hid
    simp only [parse_return_type, List.head?_cons]
    rw [if_neg hid]
    rfl
  · intro lc args rest hlen
    have hb : (args.length != 1) = true := by simpa using hlen
    simp [parse_return_type, hb]
    rfl
  · intro lc a rest
    simp [parse_return_type]
    rfl
  · intro lc rest
    simp [parse_return_type]
    rfl

/-- Witness for C3: the amended characterization applied at concrete
return types. -/
theorem C3_amended_witness :
    parse_return_type "FooError"
        (RetTy.ty (Ty.path false [TySeg.mk "Option" PathArgs.none])) =
      .error "expect Result of T" ∧
    parse_return_type "FooError"
        (RetTy.ty (Ty.path false [TySeg.mk "Result" (PathArgs.angle
          [GenericArg.tyArg (Ty.tuple []), GenericArg.tyArg (Ty.tuple [])])])) =
      .error "expect Result of T, fnerror will generate a error for this" ∧
    parse_return_type "FooError"
        (RetTy.ty (Ty.path false [TySeg.mk "Result" (PathArgs.angle
          [GenericArg.tyArg (Ty.tuple [])])])) =
      .ok (RetTy.ty (Ty.path true [TySeg.mk "std" PathArgs.none,
        TySeg.mk "result" PathArgs.none,
        TySeg.mk "Result" (PathArgs.angle [GenericArg.tyArg (Ty.tuple []),
          GenericArg.tyArg (Ty.path false [TySeg.mk "FooError" PathArgs.none])])])) :=
  ⟨(C3_amended_return_type "FooError").1 false "Option" PathArgs.none [] (by decide),
   (C3_amended_return_type "FooError").2.1 false
     [GenericArg.tyArg (Ty.tuple []), GenericArg.tyArg (Ty.tuple [])] [] (by decide),
   (C3_amended_return_type "FooError").2.2.1 false (GenericArg.tyArg (Ty.tuple [])) []⟩

/-- C4: the failure-type name is the explicit second slot identifier
verbatim when the declared return type names one, and otherwise the
function identifier converted to PascalCase with the suffix Error; the
function foo yields FooError. -/
theorem C4_error_name_selection :
    (∀ (fn_ident : String) (t : Ty) (e : String),
      ReturnType.parse (RetTy.ty (Ty.path false [TySeg.mk "Result" (PathArgs.angle
          [GenericArg.tyArg t,
           GenericArg.tyArg (Ty.path false [TySeg.mk e PathArgs.none])])])) =
        .ok ⟨"Result", t, some e⟩ ∧
      chooseErrorName fn_ident ⟨"Result", t, some e⟩ = e) ∧
    (∀ (fn_ident : String) (t : Ty),
      ReturnType.parse (RetTy.ty (Ty.path false [TySeg.mk "Result" (PathArgs.angle
          [GenericArg.tyArg t])])) = .ok ⟨"Result", t, Option.none⟩ ∧
      chooseErrorName fn_ident ⟨"Result", t, Option.none⟩ = derivedErrorIdent fn_ident) ∧
    derivedErrorIdent "foo" = "FooError" :=
  ⟨fun _ _ _ => ⟨rfl, rfl⟩, fun _ _ => ⟨rfl, rfl⟩, rfl⟩

/-- C5, counterexample: with declared lifetimes a and b and argument
types referencing a then b in that order, the resolver produces b
before a (front insertion reverses lifetime encounter order), while
the claim, with lifetimes in first-encounter order, predicts a before
b. -/
theorem C5_counterexample :
    resolveTypes [GenericParam.lifetime "a", GenericParam.lifetime "b"]
        [Ty.ref (some "a") (Ty.tuple []), Ty.ref (some "b") (Ty.tuple [])] =
      .ok [GenericParam.lifetime "b", GenericParam.lifetime "a"] ∧
    claimC5order [GenericParam.lifetime "a", GenericParam.lifetime "b"]
        [Ty.ref (some "a") (Ty.tuple []), Ty.ref (some "b") (Ty.tuple [])] =
      .ok [GenericParam.lifetime "a", GenericParam.lifetime "b"] ∧
    ([GenericParam.lifetime "b", GenericParam.lifetime "a"] : List GenericParam) ≠
      [GenericParam.lifetime "a", GenericParam.lifetime "b"] :=
  ⟨rfl, rfl, by decide⟩

/-- C5, amended: the final used-generics collection places all
borrow-scope parameters before all type and const parameters; the type
and const parameters appear in first-encounter order of the walk, while
the borrow-scope parameters appear in REVERSE first-encounter order
(each one is inserted at the front). -/
theorem C5_amended_order (d : List GenericParam) (tys : List Ty) :
    resolveTypes d tys = (encounterTypes d tys).map fun ev =>
      (ev.filter isLifetimeParam).reverse ++ ev.filter (fun p => !isLifetimeParam p) :=
  resolveTypes_eq_canonical d tys

/-- C6: the code evaluated at the failing input.  The claim states that
the used-generics collection only ever receives parameters declared on
the function, but the lifetime arm of visit_generic_argument omits the
declared-generics membership check that every sibling arm performs, so
an argument type Cow of static str inserts the undeclared lifetime
static into the collection of a function with no generics at all. -/
theorem C6_undeclared_lifetime_inserted :
    resolveTypes []
        [Ty.path false [TySeg.mk "Cow" (PathArgs.angle
          [GenericArg.lifetime "static",
           GenericArg.tyArg (Ty.path false [TySeg.mk "str" PathArgs.none])])]] =
      .ok [GenericParam.lifetime "static"] ∧
    GenericParam.lifetime "static" ∉ ([] : List GenericParam) :=
  ⟨rfl, by decide⟩

/-- C7: visiting a reference type without an explicit lifetime fails
fatally with the diagnostic, and on any structurally wellformed type
(every reference carries a lifetime and every path is nonempty) the
resolver always succeeds: a type that references no declared generic
is simply walked through, never an error. -/
theorem C7_reference_requires_lifetime :
    (∀ (d found : List GenericParam) (elem : Ty),
      GenericsVisitor.visit_type d found (Ty.ref Option.none elem) =
        .error "expect a lifetime") ∧
    (∀ (d found : List GenericParam) (t : Ty), tyWf t = true →
      ∃ out, GenericsVisitor.visit_type d found t = .ok out) := by
  constructor
  · intro d found elem
    rfl
  · intro d found t hwf
    exact wf_visit_type t d found hwf

/-- Witness for C7: the missing-lifetime failure and a no-match success
at concrete types. -/
theorem C7_witness :
    GenericsVisitor.visit_type [] [] (Ty.ref Option.none (Ty.tuple [])) =
      .error "expect a lifetime" ∧
    (tyWf (Ty.ref (some "a") (Ty.tuple [])) = true ∧
      ∃ out, GenericsVisitor.visit_type [] [] (Ty.ref (some "a") (Ty.tuple [])) = .ok out) :=
  ⟨C7_reference_requires_lifetime.1 [] [] (Ty.tuple []),
   rfl,
   C7_reference_requires_lifetime.2 [] [] (Ty.ref (some "a") (Ty.tuple [])) rfl⟩

/-- C8: a marked call without any argument fails fatally; otherwise the
first argument becomes the display template carried unaltered into the
variant, it is removed from the rewritten argument list, and the
formatting annotation carries the 0-based positional indices of the
fields. -/
theorem C8_template_argument (st : ItemEnum) (attrs : List (List String)) (c : String)
    (hm : (attrs.any fun a => isFnerrAttr a) = true) :
    (ErrorVistor.visit_expr_mut st (Expr.call attrs (Expr.path false [c]) []) =
      .error "expect a format string") ∧
    (∀ (fmt : Expr) (rest vals : List Expr) (tys : List Ty),
      collectCastArgs rest = .ok (vals, tys) →
      ErrorVistor.visit_expr_mut st (Expr.call attrs (Expr.path false [c]) (fmt :: rest)) =
        .ok ({ st with variants := st.variants ++
                [⟨c, fmt, tys, List.range tys.length⟩] },
          Expr.call (attrs.filter fun a => !(isFnerrAttr a))
            (Expr.path false [st.ident, c]) vals)) := by
  constructor
  · rw [ErrorVistor.visit_expr_mut, hm]
    rfl
  · intro fmt rest vals tys hc
    exact visit_marked_call st attrs c fmt rest vals tys hm hc

/-- Witness for C8: the missing-template failure and a one-field call
evaluated concretely. -/
theorem C8_witness :
    ErrorVistor.visit_expr_mut (ErrorVistor.new "FooError")
        (Expr.call [["fnerr"]] (Expr.path false ["E"]) []) =
      .error "expect a format string" ∧
    ErrorVistor.visit_expr_mut (ErrorVistor.new "FooError")
        (Expr.call [["fnerr"]] (Expr.path false ["E"])
          [Expr.lit "t", Expr.cast (Expr.lit "v") (Ty.tuple [])]) =
      .ok ({ ident := "FooError",
             variants := [⟨"E", Expr.lit "t", [Ty.tuple []], [0]⟩] },
        Expr.call [] (Expr.path false ["FooError", "E"]) [Expr.lit "v"]) :=
  ⟨(C8_template_argument (ErrorVistor.new "FooError") [["fnerr"]] "E" (by rfl)).1,
   (C8_template_argument (ErrorVistor.new "FooError") [["fnerr"]] "E" (by rfl)).2
     (Expr.lit "t") [Expr.cast (Expr.lit "v") (Ty.tuple [])] [Expr.lit "v"] [Ty.tuple []] rfl⟩

/-- C9, counterexample: the claim states that no fnerr marker remains
anywhere in the rewritten body.  A marked call nested inside the cast
value of another marked call is carried into the output verbatim, so
its marker survives in the rewritten body. -/
theorem C9_counterexample :
    ErrorVistor.visit_expr_mut (ErrorVistor.new "FooError")
        (Expr.call [["fnerr"]] (Expr.path false ["E1"])
          [Expr.lit "t",
           Expr.cast (Expr.call [["fnerr"]] (Expr.path false ["E2"]) [Expr.lit "s"])
             (Ty.tuple [])]) =
      .ok ({ ident := "FooError",
             variants := [⟨"E1", Expr.lit "t", [Ty.tuple []], [0]⟩] },
        Expr.call [] (Expr.path false ["FooError", "E1"])
          [Expr.call [["fnerr"]] (Expr.path false ["E2"]) [Expr.lit "s"]]) ∧
    exprHasFnerr (Expr.call [] (Expr.path false ["FooError", "E1"])
        [Expr.call [["fnerr"]] (Expr.path false ["E2"]) [Expr.lit "s"]]) = true :=
  ⟨rfl, rfl⟩

/-- C9, amended: every call the walk visits has its fnerr markers
stripped whether or not it qualifies, attributes with any other name
being preserved by the same filter; and whenever no marked call is
nested inside the retained argument values of another marked call, the
rewritten body contains no marker at all.  Calls inside the argument
values of a marked call are not visited and keep their markers. -/
theorem C9_amended_marker_stripping :
    (∀ (st : ItemEnum) (attrs : List (List String)) (f : Expr) (args : List Expr)
        (st2 : ItemEnum) (e2 : Expr),
      ErrorVistor.visit_expr_mut st (Expr.call attrs f args) = .ok (st2, e2) →
      ∃ f1 args1, e2 = Expr.call (attrs.filter fun a => !(isFnerrAttr a)) f1 args1) ∧
    (∀ (error_ident : String) (body : List Stmt) (en : ItemEnum) (body2 : List Stmt),
      stmtListMarkedClean body = true →
      runExtractor error_ident body = .ok (en, body2) →
      stmtListHasFnerr body2 = false) := by
  constructor
  · intro st attrs f args st2 e2 h
    by_cases hm : (attrs.any fun a => isFnerrAttr a) = true
    · obtain ⟨c, fmt, rest, vals, tys, hf, ha, hc, hst, he⟩ :=
        visit_marked_call_inv st attrs f args st2 e2 hm h
      exact ⟨Expr.path false [st.ident, c], vals, he⟩
    · rw [Bool.not_eq_true] at hm
      rw [visit_unmarked_call st attrs f args hm] at h
      obtain ⟨⟨st1, f1⟩, h1, h⟩ := ebind_ok_inv h
      obtain ⟨⟨st2x, args1⟩, h2, h⟩ := ebind_ok_inv h
      have hp := epure_ok_inv h
      injection hp with hpa hpb
      exact ⟨f1, args1, hpb.symm⟩
  · intro error_ident body en body2 hclean h
    exact clean_visit_stmt_list body (ErrorVistor.new error_ident) en body2 hclean h

/-- Witness for C9: both conjuncts at concrete inputs, a call carrying
a fnerr marker next to another attribute, and a clean body whose
rewritten form is marker free. -/
theorem C9_amended_witness :
    (∃ f1 args1,
      (Expr.call [["allow"]] (Expr.path false ["FooError", "E"]) [] : Expr) =
        Expr.call ([["fnerr"], ["allow"]].filter fun a => !(isFnerrAttr a)) f1 args1) ∧
    stmtListHasFnerr
      [Stmt.exprStmt (Expr.call [] (Expr.path false ["FooError", "E"]) [])] = false := by
  constructor
  · exact C9_amended_marker_stripping.1 (ErrorVistor.new "FooError")
      [["fnerr"], ["allow"]] (Expr.path false ["E"]) [Expr.lit "t"]
      { ident := "FooError", variants := [⟨"E", Expr.lit "t", [], []⟩] }
      (Expr.call [["allow"]] (Expr.path false ["FooError", "E"]) []) (by rfl)
  · exact C9_amended_marker_stripping.2 "FooError"
      [Stmt.exprStmt (Expr.call [["fnerr"]] (Expr.path false ["E"])
        [Expr.lit "t"])]
      { ident := "FooError", variants := [⟨"E", Expr.lit "t", [], []⟩] }
      [Stmt.exprStmt (Expr.call [] (Expr.path false ["FooError", "E"]) [])]
      (by rfl) (by rfl)

/-- C10: once a call is recognized as marker annotated, its argument
sub-expressions are not traversed: the rewritten call carries the cast
value sub-expressions verbatim, exactly one variant (the outer tag) is
recorded no matter what is nested inside those values, and a marker
nested inside a value survives into the output unstripped. -/
theorem C10_marked_args_not_traversed (st : ItemEnum) (attrs : List (List String))
    (c : String) (fmt : Expr) (rest vals : List Expr) (tys : List Ty)
    (hm : (attrs.any fun a => isFnerrAttr a) = true)
    (hc : collectCastArgs rest = .ok (vals, tys)) :
    ErrorVistor.visit_expr_mut st (Expr.call attrs (Expr.path false [c]) (fmt :: rest)) =
      .ok ({ st with variants := st.variants ++ [⟨c, fmt, tys, List.range tys.length⟩] },
        Expr.call (attrs.filter fun a => !(isFnerrAttr a))
          (Expr.path false [st.ident, c]) vals) ∧
    (exprListHasFnerr vals = true →
      exprHasFnerr (Expr.call (attrs.filter fun a => !(isFnerrAttr a))
        (Expr.path false [st.ident, c]) vals) = true) := by
  constructor
  · exact visit_marked_call st attrs c fmt rest vals tys hm hc
  · intro hv
    simp [exprHasFnerr, hv]

/-- Witness for C10: a marked call whose cast value is itself a marked
call; the inner call is neither recorded nor rewritten and its marker
survives. -/
theorem C10_witness :
    ErrorVistor.visit_expr_mut (ErrorVistor.new "BarError")
        (Expr.call [["fnerr"]] (Expr.path false ["Outer"])
          [Expr.lit "f",
           Expr.cast (Expr.call [["fnerr"]] (Expr.path false ["Inner"]) [Expr.lit "g"])
             (Ty.tuple [])]) =
      .ok ({ ident := "BarError",
             variants := [⟨"Outer", Expr.lit "f", [Ty.tuple []], [0]⟩] },
        Expr.call [] (Expr.path false ["BarError", "Outer"])
          [Expr.call [["fnerr"]] (Expr.path false ["Inner"]) [Expr.lit "g"]]) ∧
    exprHasFnerr (Expr.call [] (Expr.path false ["BarError", "Outer"])
        [Expr.call [["fnerr"]] (Expr.path false ["Inner"]) [Expr.lit "g"]]) = true := by
  constructor
  · exact (C10_marked_args_not_traversed (ErrorVistor.new "BarError") [["fnerr"]]
      "Outer" (Expr.lit "f")
      [Expr.cast (Expr.call [["fnerr"]] (Expr.path false ["Inner"]) [Expr.lit "g"])
        (Ty.tuple [])]
      [Expr.call [["fnerr"]] (Expr.path false ["Inner"]) [Expr.lit "g"]]
      [Ty.tuple []] (by rfl) rfl).1
  · exact (C10_marked_args_not_traversed (ErrorVistor.new "BarError") [["fnerr"]]
      "Outer" (Expr.lit "f")
      [Expr.cast (Expr.call [["fnerr"]] (Expr.path false ["Inner"]) [Expr.lit "g"])
        (Ty.tuple [])]
      [Expr.call [["fnerr"]] (Expr.path false ["Inner"]) [Expr.lit "g"]]
      [Ty.tuple []] (by rfl) rfl).2 rfl

end Fnerror
